import Mathlib

/-! Mesen debugger core: code/data logger and disassembly range compaction.

Shallow embedding of `Core/CodeDataLogger.cpp` and of the range-merging,
change-detection, execution-redirect and state-restore parts of
`Core/Debugger.cpp`, followed by theorems about them.

Conventions of the embedding
* `uint8_t` and `uint32_t` values are natural numbers; conversions and
  wrap-around are written out (`toUInt8`, `toInt32`, `incU32`, `decU32`).
* `int32_t` values are integers.
* The usage map `_cdlData` is a list of bytes; reading is `getD … 0`, writing is
  `List.set`.  The constructor allocates `prgSize + chrSize` bytes, so a
  well-formed logger has `cdlData.length = prgSize + chrSize`.
-/

namespace Mesen

/-! ## Machine integers -/

/-- The value of `(uint8_t)x`. -/
def toUInt8 (x : Nat) : Nat := x % 256

/-- The value of `(uint32_t)x`. -/
def toUInt32 (x : Nat) : Nat := x % 2 ^ 32

/-- The value of `(int32_t)x` for an unsigned 32-bit `x` (two's complement). -/
def toInt32 (x : Nat) : Int :=
  if x % 2 ^ 32 < 2 ^ 31 then ((x % 2 ^ 32 : Nat) : Int) else ((x % 2 ^ 32 : Nat) : Int) - 2 ^ 32

/-- The `int32_t` that results from a computation on `int32_t` operands whose exact
value is `x`: the value is reduced modulo `2^32` into the range from `-2^31` up to
`2^31 - 1` (two's complement wrap-around). -/
def wrapInt32 (x : Int) : Int := (x + 2 ^ 31) % 2 ^ 32 - 2 ^ 31

/-- The statement `x++` on a `uint32_t`. -/
def incU32 (x : Nat) : Nat := (x + 1) % 2 ^ 32

/-- The statement `x--` on a `uint32_t`. -/
def decU32 (x : Nat) : Nat := (x + (2 ^ 32 - 1)) % 2 ^ 32

/-- The statement `b &= ~m` on a `uint8_t` lvalue `b` with a `uint8_t` operand `m`:
the operand is promoted to `int`, complemented, and the result is truncated to
eight bits, which clears in `b` exactly the bits of `m`. -/
def clearBits (b m : Nat) : Nat := b &&& (0xFF ^^^ toUInt8 m)

/-! ## CodeDataLogger -/

/-- Modelled from the spec: the enumerators of `CdlPrgFlags` and `CdlChrFlags` are
declared in `CodeDataLogger.h`, which is not among the sources; the spec calls
their bit values an implementation-defined enumeration.  Their numeric values are
therefore parameters of the embedding. -/
structure CdlFlagValues where
  Code : Nat
  Data : Nat
  JumpTarget : Nat
  SubEntryPoint : Nat
  Drawn : Nat
  Read : Nat
deriving DecidableEq

/-- Named program-region flags (`enum class CdlPrgFlags`). -/
inductive CdlPrgFlags where
  | Code
  | Data
  | JumpTarget
  | SubEntryPoint
deriving DecidableEq

/-- Named graphics-region flags (`enum class CdlChrFlags`). -/
inductive CdlChrFlags where
  | Drawn
  | Read
deriving DecidableEq

/-- Numeric value of a program flag. -/
def CdlFlagValues.prg (fv : CdlFlagValues) : CdlPrgFlags → Nat
  | .Code => fv.Code
  | .Data => fv.Data
  | .JumpTarget => fv.JumpTarget
  | .SubEntryPoint => fv.SubEntryPoint

/-- Numeric value of a graphics flag. -/
def CdlFlagValues.chr (fv : CdlFlagValues) : CdlChrFlags → Nat
  | .Drawn => fv.Drawn
  | .Read => fv.Read

/-- The flag values are usable as bit masks of one byte: every value is a non-zero
`uint8_t`, the four program masks are pairwise disjoint and so are the two
graphics masks. -/
def CdlFlagValues.Disjoint (fv : CdlFlagValues) : Prop :=
  (fv.Code < 256 ∧ fv.Data < 256 ∧ fv.JumpTarget < 256 ∧ fv.SubEntryPoint < 256 ∧
    fv.Drawn < 256 ∧ fv.Read < 256) ∧
  (fv.Code ≠ 0 ∧ fv.Data ≠ 0 ∧ fv.JumpTarget ≠ 0 ∧ fv.SubEntryPoint ≠ 0 ∧
    fv.Drawn ≠ 0 ∧ fv.Read ≠ 0) ∧
  (fv.Code &&& fv.Data = 0 ∧ fv.Code &&& fv.JumpTarget = 0 ∧
    fv.Code &&& fv.SubEntryPoint = 0 ∧ fv.Data &&& fv.JumpTarget = 0 ∧
    fv.Data &&& fv.SubEntryPoint = 0 ∧ fv.JumpTarget &&& fv.SubEntryPoint = 0) ∧
  fv.Drawn &&& fv.Read = 0

instance (fv : CdlFlagValues) : Decidable fv.Disjoint := by
  unfold CdlFlagValues.Disjoint; infer_instance

/-- A concrete assignment of single bits to the flags, used for evaluation. -/
def sampleFlags : CdlFlagValues :=
  { Code := 0x01, Data := 0x02, JumpTarget := 0x04, SubEntryPoint := 0x08,
    Drawn := 0x01, Read := 0x02 }

/-- The fields of `class CodeDataLogger`: the two sizes, the usage map and the
five counters (all counters and sizes are `uint32_t`). -/
structure CodeDataLogger where
  prgSize : Nat
  chrSize : Nat
  cdlData : List Nat
  codeSize : Nat
  dataSize : Nat
  usedChrSize : Nat
  drawnChrSize : Nat
  readChrSize : Nat
deriving DecidableEq

namespace CodeDataLogger

/-- The buffer has the length it was allocated with. -/
def WellFormed (s : CodeDataLogger) : Prop :=
  s.cdlData.length = s.prgSize + s.chrSize

instance (s : CodeDataLogger) : Decidable s.WellFormed := by
  unfold WellFormed; infer_instance

/-- The expression `_cdlData[i]`. -/
def byteAt (s : CodeDataLogger) (i : Nat) : Nat := s.cdlData.getD i 0

/-- The assignment `_cdlData[i] = v`. -/
def setByte (s : CodeDataLogger) (i v : Nat) : CodeDataLogger :=
  { s with cdlData := s.cdlData.set i v }

/-- `CodeDataLogger::IsCode`. -/
def IsCode (fv : CdlFlagValues) (s : CodeDataLogger) (absoluteAddr : Nat) : Bool :=
  (s.byteAt absoluteAddr &&& toUInt8 fv.Code) == toUInt8 fv.Code

/-- `CodeDataLogger::IsJumpTarget`. -/
def IsJumpTarget (fv : CdlFlagValues) (s : CodeDataLogger) (absoluteAddr : Nat) : Bool :=
  (s.byteAt absoluteAddr &&& toUInt8 fv.JumpTarget) == toUInt8 fv.JumpTarget

/-- `CodeDataLogger::IsSubEntryPoint`. -/
def IsSubEntryPoint (fv : CdlFlagValues) (s : CodeDataLogger) (absoluteAddr : Nat) : Bool :=
  (s.byteAt absoluteAddr &&& toUInt8 fv.SubEntryPoint) == toUInt8 fv.SubEntryPoint

/-- `CodeDataLogger::IsData`. -/
def IsData (fv : CdlFlagValues) (s : CodeDataLogger) (absoluteAddr : Nat) : Bool :=
  (s.byteAt absoluteAddr &&& toUInt8 fv.Data) == toUInt8 fv.Data

/-- `CodeDataLogger::IsRead`. -/
def IsRead (fv : CdlFlagValues) (s : CodeDataLogger) (absoluteAddr : Nat) : Bool :=
  (s.byteAt (absoluteAddr + s.prgSize) &&& toUInt8 fv.Read) == toUInt8 fv.Read

/-- `CodeDataLogger::IsDrawn`. -/
def IsDrawn (fv : CdlFlagValues) (s : CodeDataLogger) (absoluteAddr : Nat) : Bool :=
  (s.byteAt (absoluteAddr + s.prgSize) &&& toUInt8 fv.Drawn) == toUInt8 fv.Drawn

/-- `CodeDataLogger::Reset`: all counters and all bytes of the map become zero. -/
def Reset (s : CodeDataLogger) : CodeDataLogger :=
  { s with
    codeSize := 0, dataSize := 0, usedChrSize := 0, drawnChrSize := 0, readChrSize := 0,
    cdlData := List.replicate (s.prgSize + s.chrSize) 0 }

/-- The constructor: stores the sizes, allocates the map and calls `Reset`. -/
def create (prgSize chrSize : Nat) : CodeDataLogger :=
  Reset
    { prgSize := prgSize, chrSize := chrSize, cdlData := [],
      codeSize := 0, dataSize := 0, usedChrSize := 0, drawnChrSize := 0, readChrSize := 0 }

/-- Body of the first loop of `CalculateStats` for index `i`. -/
def statsPrgStep (fv : CdlFlagValues) (s : CodeDataLogger) (i : Nat) : CodeDataLogger :=
  if IsCode fv s i then
    { s with codeSize := incU32 s.codeSize }
  else if IsData fv s i then
    { s with dataSize := incU32 s.dataSize }
  else s

/-- Body of the second loop of `CalculateStats` for index `i`. -/
def statsChrStep (fv : CdlFlagValues) (s : CodeDataLogger) (i : Nat) : CodeDataLogger :=
  if IsDrawn fv s i || IsRead fv s i then
    let s1 := { s with usedChrSize := incU32 s.usedChrSize }
    if IsDrawn fv s1 i then
      { s1 with drawnChrSize := incU32 s1.drawnChrSize }
    else if IsRead fv s1 i then
      { s1 with readChrSize := incU32 s1.readChrSize }
    else s1
  else s

/-- `CodeDataLogger::CalculateStats`.  Both loops run `i` from `0` while
`i < len`, where `len` is the size converted to `int`. -/
def CalculateStats (fv : CdlFlagValues) (s : CodeDataLogger) : CodeDataLogger :=
  let s0 := { s with
    codeSize := 0, dataSize := 0, usedChrSize := 0, drawnChrSize := 0, readChrSize := 0 }
  let s1 := (List.range (toInt32 s0.prgSize).toNat).foldl (statsPrgStep fv) s0
  (List.range (toInt32 s1.chrSize).toNat).foldl (statsChrStep fv) s1

/-- `CodeDataLogger::SetFlag(int32_t absoluteAddr, CdlPrgFlags flag)`. -/
def SetFlagPrg (fv : CdlFlagValues) (s : CodeDataLogger) (absoluteAddr : Int)
    (flag : CdlPrgFlags) : CodeDataLogger :=
  if absoluteAddr ≥ 0 ∧ absoluteAddr < toInt32 s.prgSize then
    let a := absoluteAddr.toNat
    if (s.byteAt a &&& toUInt8 (fv.prg flag)) ≠ toUInt8 (fv.prg flag) then
      if fv.prg flag = fv.Code then
        let s1 :=
          if IsData fv s a then
            { s.setByte a (clearBits (s.byteAt a) fv.Data) with dataSize := decU32 s.dataSize }
          else s
        { s1.setByte a (s1.byteAt a ||| toUInt8 (fv.prg flag)) with
          codeSize := incU32 s1.codeSize }
      else if fv.prg flag = fv.Data then
        if ¬ IsCode fv s a then
          { s.setByte a (s.byteAt a ||| toUInt8 (fv.prg flag)) with
            dataSize := incU32 s.dataSize }
        else s
      else
        s.setByte a (s.byteAt a ||| toUInt8 (fv.prg flag))
    else s
  else s

/-- `CodeDataLogger::SetFlag(int32_t chrAbsoluteAddr, CdlChrFlags flag)`. -/
def SetFlagChr (fv : CdlFlagValues) (s : CodeDataLogger) (chrAbsoluteAddr : Int)
    (flag : CdlChrFlags) : CodeDataLogger :=
  if chrAbsoluteAddr ≥ 0 ∧ chrAbsoluteAddr < toInt32 s.chrSize then
    let a := s.prgSize + chrAbsoluteAddr.toNat
    if (s.byteAt a &&& toUInt8 (fv.chr flag)) ≠ toUInt8 (fv.chr flag) then
      let s1 := { s with usedChrSize := incU32 s.usedChrSize }
      let s2 :=
        if fv.chr flag = fv.Read then
          { s1 with readChrSize := incU32 s1.readChrSize }
        else if fv.chr flag = fv.Drawn then
          { s1 with drawnChrSize := incU32 s1.drawnChrSize }
        else s1
      s2.setByte a (s2.byteAt a ||| toUInt8 (fv.chr flag))
    else s
  else s

end CodeDataLogger

/-- One call of a flag-setter. -/
inductive CdlCall where
  | prg (absoluteAddr : Int) (flag : CdlPrgFlags)
  | chr (chrAbsoluteAddr : Int) (flag : CdlChrFlags)
deriving DecidableEq

/-- Perform one flag-setter call. -/
def CdlCall.run (fv : CdlFlagValues) (s : CodeDataLogger) : CdlCall → CodeDataLogger
  | .prg a f => s.SetFlagPrg fv a f
  | .chr a f => s.SetFlagChr fv a f

/-- Perform a sequence of flag-setter calls, first call first. -/
def runCalls (fv : CdlFlagValues) (s : CodeDataLogger) (calls : List CdlCall) : CodeDataLogger :=
  calls.foldl (CdlCall.run fv) s

/-- The byte `b` has all bits of the flag `m`: `(b & (uint8_t)m) == (uint8_t)m`. -/
def hasFlag (m b : Nat) : Bool := (b &&& toUInt8 m) == toUInt8 m

/-- Number of program bytes (indices below `prgSize`) that have the flag `m`. -/
def countPrg (s : CodeDataLogger) (m : Nat) : Nat :=
  (s.cdlData.take s.prgSize).countP (hasFlag m)

/-- Invariant I1: no program byte has both `Code` and `Data`. -/
def CodeDataExclusive (fv : CdlFlagValues) (s : CodeDataLogger) : Prop :=
  ∀ i, i < s.prgSize → ¬ (s.IsCode fv i = true ∧ s.IsData fv i = true)

/-- A logger with no program bytes and one graphics byte that carries both
`Drawn` and `Read`, as a raw load of the map would install it. -/
def bothFlagsMap (fv : CdlFlagValues) : CodeDataLogger :=
  { prgSize := 0, chrSize := 1, cdlData := [fv.Drawn ||| fv.Read],
    codeSize := 0, dataSize := 0, usedChrSize := 0, drawnChrSize := 0, readChrSize := 0 }

/-- The incrementally maintained program counters equal the number of program
bytes with `Code` and with `Data`. -/
def PrgCountersExact (fv : CdlFlagValues) (s : CodeDataLogger) : Prop :=
  s.codeSize = countPrg s fv.Code ∧ s.dataSize = countPrg s fv.Data

/-- The calls `SetFlag(a, Data)` and then `SetFlag(a, Code)`. -/
def setDataThenCode (fv : CdlFlagValues) (a : Int) (s : CodeDataLogger) : CodeDataLogger :=
  (s.SetFlagPrg fv a .Data).SetFlagPrg fv a .Code

/-- The calls `SetFlag(a, Code)` and then `SetFlag(a, Data)`. -/
def setCodeThenData (fv : CdlFlagValues) (a : Int) (s : CodeDataLogger) : CodeDataLogger :=
  (s.SetFlagPrg fv a .Code).SetFlagPrg fv a .Data

/-- Number of graphics bytes (indices `prgSize ≤ i < prgSize + chrSize`) whose byte
satisfies `p`. -/
def countChr (s : CodeDataLogger) (p : Nat → Bool) : Nat :=
  ((s.cdlData.drop s.prgSize).take s.chrSize).countP p

/-! ## Debugger: disassembly range compaction and change detection -/

/-- Modelled from the spec: `enum class AddressType` is declared in a header that is
not among the sources; these are the enumerators `Debugger.cpp` names. -/
inductive AddressType where
  | InternalRam
  | PrgRom
  | WorkRam
  | SaveRam
  | Register
deriving DecidableEq

/-- Modelled from the spec: `struct AddressTypeInfo` is declared in a header that is
not among the sources; `Debugger.cpp` reads its fields `Address` (an `int32_t`,
negative when the address is unmapped) and `Type`. -/
structure AddressTypeInfo where
  Address : Int
  type : AddressType
deriving DecidableEq

/-- The arguments of one call `_disassembler->GetCode(startInfo, endAddr,
startMemoryAddr, …)` made by `GenerateCodeOutput`. -/
structure CodeRequest where
  startInfo : AddressTypeInfo
  endAddr : Int
  startMemoryAddr : Nat
deriving DecidableEq

/-- A `std::string`, as its sequence of characters. -/
abbrev StdString := List Nat

namespace Debugger

/-- The `while` loop of `GenerateCodeOutput`.  The arguments after the bound are
the loop variables `currentInfo`, `endInfo`, `endAddr` and `i`; the result is the
value of `endAddr` and `i` when the loop is left.  `resolve` stands for
`GetAbsoluteAddressAndType`, and the first argument bounds the number of
iterations (`none` when the bound is reached).  The sums `currentInfo.Address +
0x100` and `endAddr += 0x100` are `int32_t` computations. -/
def mergeLoop (resolve : Nat → AddressTypeInfo) :
    Nat → AddressTypeInfo → AddressTypeInfo → Int → Nat → Option (Int × Nat)
  | 0, _, _, _, _ => none
  | fuel + 1, currentInfo, endInfo, endAddr, i =>
    if currentInfo.type = endInfo.type ∧
        wrapInt32 (currentInfo.Address + 0x100) = endInfo.Address ∧ i < 0x10000 then
      mergeLoop resolve fuel endInfo (resolve (i + 0x100 + 0x100))
        (wrapInt32 (endAddr + 0x100)) (i + 0x100)
    else some (endAddr, i)

/-- The `for` loop of `GenerateCodeOutput`, entered with loop variable `i`; the
result is the list of disassembly requests in the order they are made.  The first
argument bounds the number of iterations (`none` when the bound is reached).  The
sum `startAddr + 0xFF` is an `int32_t` computation. -/
def codeLoop (resolve : Nat → AddressTypeInfo) : Nat → Nat → Option (List CodeRequest)
  | 0, i => if i < 0x10000 then none else some []
  | fuel + 1, i =>
    if i < 0x10000 then
      let startInfo := resolve i
      let endInfo := resolve (i + 0x100)
      let startMemoryAddr := i
      if startInfo.Address ≥ 0 then
        match mergeLoop resolve 257 startInfo endInfo (wrapInt32 (startInfo.Address + 0xFF))
            i with
        | none => none
        | some (endAddr, i1) =>
          (codeLoop resolve fuel (i1 + 0x100)).map
            (fun rest => { startInfo := startInfo, endAddr := endAddr,
                           startMemoryAddr := startMemoryAddr } :: rest)
      else codeLoop resolve fuel (i + 0x100)
    else some []

/-- The logical address of the last block the `while` loop merges into the run
that the `for` loop starts at block `s`: the value of `i` when the `while` loop is
left. -/
def mergedUpTo (resolve : Nat → AddressTypeInfo) (s : Nat) : Option Nat :=
  (mergeLoop resolve 257 (resolve s) (resolve (s + 0x100))
    (wrapInt32 ((resolve s).Address + 0xFF)) s).map Prod.snd

/-- The disassembly requests of one `GenerateCodeOutput` pass. -/
def codeRequests (resolve : Nat → AddressTypeInfo) : Option (List CodeRequest) :=
  codeLoop resolve 256 0

/-- `Debugger::GenerateCodeOutput`: the new value of `_disassemblerOutput`, the
concatenation of the texts `disasm` (`Disassembler::GetCode`) returns for the
requests. -/
def GenerateCodeOutput (resolve : Nat → AddressTypeInfo) (disasm : CodeRequest → StdString) :
    Option StdString :=
  (codeRequests resolve).map (fun reqs => (reqs.map disasm).flatten)

/-- What `Debugger::GetCode` leaves behind: the returned pointer (`none` is the
null pointer, otherwise the text it points to), the reference argument `length`
and the static `_disassemblerOutput`. -/
structure GetCodeResult where
  result : Option StdString
  length : Nat
  disassemblerOutput : StdString
deriving DecidableEq

/-- `Debugger::GetCode(uint32_t &length)`, with the static `_disassemblerOutput`
passed in explicitly. -/
def GetCode (resolve : Nat → AddressTypeInfo) (disasm : CodeRequest → StdString)
    (disassemblerOutput : StdString) (length : Nat) : Option GetCodeResult :=
  let previousCode := disassemblerOutput
  match GenerateCodeOutput resolve disasm with
  | none => none
  | some newOutput =>
    let forceRefresh := length == 0xFFFFFFFF
    let length1 := toUInt32 newOutput.length
    if !forceRefresh && previousCode == newOutput then
      some { result := none, length := length1, disassemblerOutput := newOutput }
    else
      some { result := some newOutput, length := length1, disassemblerOutput := newOutput }

end Debugger

/-- No `int32_t` computation of the pass overflows: every physical address the
resolver returns for a logical address the pass resolves (these are at most
0x10100) is an `int32_t` value `a` with `a + 0x100 ≤ INT32_MAX`. -/
def AddressesFit (resolve : Nat → AddressTypeInfo) : Prop :=
  ∀ i, i ≤ 0x10100 → -2 ^ 31 ≤ (resolve i).Address ∧ (resolve i).Address + 0x100 < 2 ^ 31

/-- The block at logical address `b + 0x100` continues, in physical storage and
space type, the block at logical address `b`. -/
def Contiguous (resolve : Nat → AddressTypeInfo) (b : Nat) : Prop :=
  (resolve (b + 0x100)).type = (resolve b).type ∧
    (resolve (b + 0x100)).Address = (resolve b).Address + 0x100

instance (resolve : Nat → AddressTypeInfo) (b : Nat) : Decidable (Contiguous resolve b) := by
  unfold Contiguous; infer_instance

/-- The request covers the 256-byte block at logical address `b`: the block lies
in the logical range that starts at the request's logical start and is as long as
its physical range. -/
def CodeRequest.Covers (r : CodeRequest) (b : Nat) : Prop :=
  r.startMemoryAddr ≤ b ∧
    (b : Int) + 0xFF ≤ (r.startMemoryAddr : Int) + (r.endAddr - r.startInfo.Address)

instance (r : CodeRequest) (b : Nat) : Decidable (r.Covers b) := by
  unfold CodeRequest.Covers; infer_instance

/-- A disassembler used for evaluation: the text of a request consists of its
logical start address and the number of bytes requested. -/
def sampleDisasm (r : CodeRequest) : StdString :=
  [r.startMemoryAddr, (r.endAddr - r.startInfo.Address + 1).toNat]

/-- The request is a maximal run of the resolver without overflow: it starts at a
mapped, aligned block below the top of the address space, is tagged with that
block's logical address and resolution, merges `k` further blocks (the blocks the
`while` loop merged) each of which continues the one before it, and stops at a
block that is not continued (or at the top check of the loop). -/
def IsRun (resolve : Nat → AddressTypeInfo) (r : CodeRequest) : Prop :=
  r.startInfo = resolve r.startMemoryAddr ∧ r.startMemoryAddr % 0x100 = 0 ∧
  r.startMemoryAddr < 0x10000 ∧ 0 ≤ r.startInfo.Address ∧
  ∃ k : Nat, r.endAddr = r.startInfo.Address + 0xFF + 0x100 * (k : Int) ∧
    Debugger.mergedUpTo resolve r.startMemoryAddr = some (r.startMemoryAddr + 0x100 * k) ∧
    (∀ j, j < k → Contiguous resolve (r.startMemoryAddr + 0x100 * j) ∧
      r.startMemoryAddr + 0x100 * j < 0x10000) ∧
    ¬ (Contiguous resolve (r.startMemoryAddr + 0x100 * k) ∧
      r.startMemoryAddr + 0x100 * k < 0x10000)

/-- A resolver used for evaluation: the first two blocks map to the start of PRG
ROM, everything else is unmapped. -/
def sampleResolve (i : Nat) : AddressTypeInfo :=
  if i < 0x200 then { Address := i, type := .PrgRom } else { Address := -1, type := .PrgRom }

/-- A resolver used for evaluation: block 0 maps to the PRG ROM offset
`2^31 - 0x100`, block 0x100 resolves to the negative address `-2^31`, which is
what `2^31 - 0x100 + 0x100` wraps to as an `int32_t`, and everything else is
unmapped. -/
def wrapResolve (i : Nat) : AddressTypeInfo :=
  if i < 0x100 then { Address := 2147483392, type := .PrgRom }
  else if i < 0x200 then { Address := -2147483648, type := .PrgRom }
  else { Address := -1, type := .PrgRom }

/-- A resolver used for evaluation: block 0 maps to PRG ROM offset 0, block 1 to
offset 0x400, everything else is unmapped. -/
def sampleResolveSplit (i : Nat) : AddressTypeInfo :=
  if i < 0x100 then { Address := i, type := .PrgRom }
  else if i < 0x200 then { Address := 0x300 + i, type := .PrgRom }
  else { Address := -1, type := .PrgRom }

/-! ## CodeDataLogger: ratios -/

/-- A `float` computed by `GetRatios`, kept symbolic so that no floating-point
rounding enters the embedding: either the quotient `(float)num / (float)den` of
two unsigned integers or an integer constant. -/
inductive RatioValue where
  | quotient (num den : Nat)
  | constant (value : Int)
deriving DecidableEq

/-- The symbolic value read as an exact rational number. -/
def RatioValue.toRat : RatioValue → ℚ
  | .quotient num den => (num : ℚ) / (den : ℚ)
  | .constant value => (value : ℚ)

/-- The value is the result of a division by `den`. -/
def RatioValue.DividesBy (den : Nat) : RatioValue → Prop
  | .quotient _ d => d = den
  | .constant _ => False

/-- Modelled from the spec: `struct CdlRatios` is declared in `CodeDataLogger.h`,
which is not among the sources; these are the fields `GetRatios` assigns. -/
structure CdlRatios where
  CodeRatio : RatioValue
  DataRatio : RatioValue
  PrgRatio : RatioValue
  ChrRatio : RatioValue
  ChrReadRatio : RatioValue
  ChrDrawnRatio : RatioValue
deriving DecidableEq

/-- `CodeDataLogger::GetRatios`.  The sum `_codeSize + _dataSize` is a `uint32_t`
addition. -/
def CodeDataLogger.GetRatios (s : CodeDataLogger) : CdlRatios :=
  { CodeRatio := .quotient s.codeSize s.prgSize,
    DataRatio := .quotient s.dataSize s.prgSize,
    PrgRatio := .quotient (toUInt32 (s.codeSize + s.dataSize)) s.prgSize,
    ChrRatio := if s.chrSize > 0 then .quotient s.usedChrSize s.chrSize else .constant (-1),
    ChrReadRatio :=
      if s.chrSize > 0 then .quotient s.readChrSize s.chrSize else .constant (-1),
    ChrDrawnRatio :=
      if s.chrSize > 0 then .quotient s.drawnChrSize s.chrSize else .constant (-1) }

/-- Every entry of the usage map is a byte. -/
def CodeDataLogger.BytesInRange (s : CodeDataLogger) : Prop :=
  ∀ b ∈ s.cdlData, b < 256

instance (s : CodeDataLogger) : Decidable s.BytesInRange := by
  unfold CodeDataLogger.BytesInRange; infer_instance

/-- A logger with one program byte that carries both `Code` and `Data`, as a raw
load of the map can install it. -/
def codeAndDataMap (fv : CdlFlagValues) : CodeDataLogger :=
  { prgSize := 1, chrSize := 0, cdlData := [fv.Code ||| fv.Data],
    codeSize := 1, dataSize := 0, usedChrSize := 0, drawnChrSize := 0, readChrSize := 0 }

/-! ## Debugger: execution redirect and state restore -/

/-- Modelled from the spec: the CPU register record `State` is declared in a header
that is not among the sources; `Debugger.cpp` reads its field `PC` (16 bits), the
other registers are kept as one value. -/
structure State where
  PC : Nat
  registers : Nat
deriving DecidableEq

/-- Modelled from the spec: `struct DebugState` is declared in a header that is not
among the sources; `SetState` reads its fields `CPU` and `PPU`. -/
structure DebugState where
  CPU : State
  PPU : Nat
deriving DecidableEq

/-- Modelled from the spec: the member functions of class `CPU` that
`Debugger::SetState` and `Debugger::SetNextStatement` call.  `CPU.h` is not among
the sources, so they are parameters of the embedding, acting on a type of CPU
states. -/
structure CpuOps (Cpu : Type) where
  SetState : Cpu → State → Cpu
  GetPC : Cpu → Nat
  SetDebugPC : Cpu → Nat → Cpu

/-- Modelled from the spec: the CPU as a store of its register record, whose
`SetState` installs the given record, whose `GetPC` reads the stored program
counter back and whose `SetDebugPC` overwrites the stored program counter. -/
def storeCpu : CpuOps State :=
  { SetState := fun _ record => record,
    GetPC := fun cpu => cpu.PC,
    SetDebugPC := fun cpu addr => { cpu with PC := addr } }

/-- A CPU used for evaluation: its `SetState` installs the given record except for
the program counter, which it keeps. -/
def pcKeepingCpu : CpuOps State :=
  { SetState := fun cpu record => { record with PC := cpu.PC },
    GetPC := fun cpu => cpu.PC,
    SetDebugPC := fun cpu addr => { cpu with PC := addr } }

/-- The members of `class Debugger` that the redirect and the state restore touch:
the CPU, the PPU state, the targets of the pointers `_currentReadAddr` and
`_currentReadValue` (`none` for a null pointer) and `_nextReadAddr`. -/
structure DebuggerState (Cpu : Type) where
  cpu : Cpu
  ppu : Nat
  currentReadAddr : Option Nat
  currentReadValue : Option Nat
  nextReadAddr : Int

namespace Debugger

/-- `Debugger::SetNextStatement(uint16_t addr)`.  `debugRead a` stands for
`_memoryManager->DebugRead(a, false)`. -/
def SetNextStatement {Cpu : Type} (ops : CpuOps Cpu) (debugRead : Nat → Nat)
    (d : DebuggerState Cpu) (addr : Nat) : DebuggerState Cpu :=
  match d.currentReadAddr with
  | some _ =>
    { d with
      cpu := ops.SetDebugPC d.cpu addr,
      currentReadAddr := some addr,
      currentReadValue := d.currentReadValue.map (fun _ => debugRead addr) }
  | none => { d with nextReadAddr := (addr : Int) }

/-- `Debugger::SetState(DebugState state)`. -/
def SetState {Cpu : Type} (ops : CpuOps Cpu) (debugRead : Nat → Nat)
    (d : DebuggerState Cpu) (state : DebugState) : DebuggerState Cpu :=
  let d1 := { d with cpu := ops.SetState d.cpu state.CPU }
  let d2 := { d1 with ppu := state.PPU }
  if state.CPU.PC ≠ ops.GetPC d2.cpu then
    SetNextStatement ops debugRead d2 state.CPU.PC
  else d2

end Debugger

/-- A resolver used for evaluation: every logical address, also 0x10000 and above,
maps to the PRG ROM offset of the same value. -/
def identityResolve (i : Nat) : AddressTypeInfo :=
  { Address := i, type := .PrgRom }

/-- A debugger used for evaluation: a store CPU at program counter 0x8000, no live
fetch slot and no pending redirect. -/
def sampleIdle : DebuggerState State :=
  { cpu := { PC := 0x8000, registers := 0 }, ppu := 0,
    currentReadAddr := none, currentReadValue := none, nextReadAddr := -1 }

/-- A debugger used for evaluation: a store CPU at program counter 0x8000 with a
live fetch slot exposed. -/
def sampleMidFetch : DebuggerState State :=
  { cpu := { PC := 0x8000, registers := 0 }, ppu := 0,
    currentReadAddr := some 0x8000, currentReadValue := some 0xEA, nextReadAddr := -1 }

/-- A record used for evaluation: a saved state whose program counter is 0x9000. -/
def sampleRecord : DebugState :=
  { CPU := { PC := 0x9000, registers := 1 }, PPU := 7 }

/-- A memory used for evaluation: the byte read at an address is its low byte. -/
def sampleDebugRead (addr : Nat) : Nat := addr % 256

/-- A freshly constructed logger whose program size `2^31` is a valid `uint32_t`
but is not representable as the `int32_t` the range check of `SetFlag` converts
it to. -/
def hugeLogger : CodeDataLogger := CodeDataLogger.create (2 ^ 31) 0

/-- A logger of program size `2^31` whose program byte 0 carries `Data` only, as a
raw load of the map can install it. -/
def hugeDataLogger (fv : CdlFlagValues) : CodeDataLogger :=
  { prgSize := 2 ^ 31, chrSize := 0, cdlData := fv.Data :: List.replicate (2 ^ 31 - 1) 0,
    codeSize := 0, dataSize := 1, usedChrSize := 0, drawnChrSize := 0, readChrSize := 0 }

/-! ## Bit-mask lemmas -/

section Masks

theorem toUInt8_of_lt {m : Nat} (h : m < 256) : toUInt8 m = m := by
  unfold toUInt8; omega

theorem and_255_of_lt {m : Nat} (h : m < 256) : 255 &&& m = m := by
  have h1 : m &&& 2 ^ 8 - 1 = m := Nat.and_pow_two_sub_one_of_lt_two_pow (n := 8) (by omega)
  rw [Nat.and_comm]; simpa using h1

theorem or_and_self (b m : Nat) : (b ||| m) &&& m = m := by
  apply Nat.eq_of_testBit_eq
  intro i
  simp only [Nat.testBit_and, Nat.testBit_or]
  cases b.testBit i <;> cases m.testBit i <;> rfl

theorem or_and_of_disjoint (b : Nat) {f m : Nat} (h : f &&& m = 0) :
    (b ||| f) &&& m = b &&& m := by
  rw [Nat.and_distrib_right, h, Nat.or_zero]

theorem clearBits_and_self (b : Nat) {m : Nat} (hm : m < 256) : clearBits b m &&& m = 0 := by
  unfold clearBits
  rw [toUInt8_of_lt hm, Nat.and_assoc, Nat.and_xor_distrib_right, and_255_of_lt hm,
    Nat.and_self, Nat.xor_self, Nat.and_zero]

theorem clearBits_and_of_disjoint (b : Nat) {d m : Nat} (hd : d < 256) (hm : m < 256)
    (h : d &&& m = 0) : clearBits b d &&& m = b &&& m := by
  unfold clearBits
  rw [toUInt8_of_lt hd, Nat.and_assoc, Nat.and_xor_distrib_right, and_255_of_lt hm, h,
    Nat.xor_zero]

theorem hasFlag_or_self (m b : Nat) : hasFlag m (b ||| toUInt8 m) = true := by
  simp [hasFlag, or_and_self]

theorem hasFlag_or_of_disjoint (b : Nat) {f m : Nat} (hf : f < 256) (hm : m < 256)
    (h : f &&& m = 0) : hasFlag m (b ||| toUInt8 f) = hasFlag m b := by
  simp only [hasFlag, toUInt8_of_lt hf, toUInt8_of_lt hm, or_and_of_disjoint b h]

theorem hasFlag_clearBits_self (b : Nat) {m : Nat} (hm : m < 256) (h0 : m ≠ 0) :
    hasFlag m (clearBits b m) = false := by
  simp only [hasFlag, toUInt8_of_lt hm, clearBits_and_self b hm]
  simpa using fun h : 0 = m => h0 h.symm

theorem hasFlag_clearBits_of_disjoint (b : Nat) {d m : Nat} (hd : d < 256) (hm : m < 256)
    (h : d &&& m = 0) : hasFlag m (clearBits b d) = hasFlag m b := by
  simp only [hasFlag, toUInt8_of_lt hm, clearBits_and_of_disjoint b hd hm h]

theorem hasFlag_zero {m : Nat} (hm : m < 256) (h0 : m ≠ 0) : hasFlag m 0 = false := by
  simp only [hasFlag, toUInt8_of_lt hm, Nat.zero_and]
  simpa using fun h : 0 = m => h0 h.symm

theorem hasFlag_eq_true_iff (m b : Nat) :
    hasFlag m b = true ↔ b &&& toUInt8 m = toUInt8 m := by
  simp [hasFlag]

theorem hasFlag_eq_false_iff (m b : Nat) :
    hasFlag m b = false ↔ b &&& toUInt8 m ≠ toUInt8 m := by
  simp [hasFlag]

end Masks

/-! ## Reading and writing the usage map -/

namespace CodeDataLogger

section Bytes

variable (fv : CdlFlagValues) (s : CodeDataLogger)

theorem toInt32_le (n : Nat) : toInt32 n ≤ (n : Int) := by
  unfold toInt32
  have h := Nat.mod_le n (2 ^ 32)
  split <;> omega

theorem toInt32_of_lt {n : Nat} (h : n < 2 ^ 31) : toInt32 n = (n : Int) := by
  unfold toInt32
  have h1 : n % 2 ^ 32 = n := Nat.mod_eq_of_lt (by omega)
  rw [h1, if_pos h]

theorem byteAt_setByte_self {i : Nat} (v : Nat) (h : i < s.cdlData.length) :
    (s.setByte i v).byteAt i = v := by
  simp [byteAt, setByte, List.getElem?_set, h]

theorem byteAt_setByte_ne {i j : Nat} (v : Nat) (h : i ≠ j) :
    (s.setByte i v).byteAt j = s.byteAt j := by
  simp [byteAt, setByte, List.getElem?_set, h]

theorem toNat_lt_length_prg {a : Int} (hwf : s.WellFormed) (h0 : a ≥ 0)
    (h1 : a < toInt32 s.prgSize) : a.toNat < s.cdlData.length := by
  have h2 := toInt32_le s.prgSize
  unfold WellFormed at hwf
  omega

theorem toNat_lt_length_chr {a : Int} (hwf : s.WellFormed) (h0 : a ≥ 0)
    (h1 : a < toInt32 s.chrSize) : s.prgSize + a.toNat < s.cdlData.length := by
  have h2 := toInt32_le s.chrSize
  unfold WellFormed at hwf
  omega

/-- A program flag-setter call on a byte that already has the flag does
nothing. -/
theorem SetFlagPrg_of_has (a : Int) (f : CdlPrgFlags)
    (h : s.byteAt a.toNat &&& toUInt8 (fv.prg f) = toUInt8 (fv.prg f)) :
    s.SetFlagPrg fv a f = s := by
  unfold SetFlagPrg
  simp [h]

/-- A graphics flag-setter call on a byte that already has the flag does
nothing. -/
theorem SetFlagChr_of_has (a : Int) (f : CdlChrFlags)
    (h : s.byteAt (s.prgSize + a.toNat) &&& toUInt8 (fv.chr f) = toUInt8 (fv.chr f)) :
    s.SetFlagChr fv a f = s := by
  unfold SetFlagChr
  simp [h]

theorem SetFlagPrg_of_not_inRange (a : Int) (f : CdlPrgFlags)
    (h : ¬ (a ≥ 0 ∧ a < toInt32 s.prgSize)) : s.SetFlagPrg fv a f = s := by
  unfold SetFlagPrg
  rw [if_neg h]

theorem SetFlagChr_of_not_inRange (a : Int) (f : CdlChrFlags)
    (h : ¬ (a ≥ 0 ∧ a < toInt32 s.chrSize)) : s.SetFlagChr fv a f = s := by
  unfold SetFlagChr
  rw [if_neg h]

@[simp] theorem SetFlagPrg_prgSize (a : Int) (f : CdlPrgFlags) :
    (s.SetFlagPrg fv a f).prgSize = s.prgSize := by
  unfold SetFlagPrg
  dsimp only
  split_ifs <;> simp [setByte]

@[simp] theorem SetFlagPrg_chrSize (a : Int) (f : CdlPrgFlags) :
    (s.SetFlagPrg fv a f).chrSize = s.chrSize := by
  unfold SetFlagPrg
  dsimp only
  split_ifs <;> simp [setByte]

@[simp] theorem SetFlagPrg_length (a : Int) (f : CdlPrgFlags) :
    (s.SetFlagPrg fv a f).cdlData.length = s.cdlData.length := by
  unfold SetFlagPrg
  dsimp only
  split_ifs <;> simp [setByte]

@[simp] theorem SetFlagChr_prgSize (a : Int) (f : CdlChrFlags) :
    (s.SetFlagChr fv a f).prgSize = s.prgSize := by
  unfold SetFlagChr
  dsimp only
  split_ifs <;> simp [setByte]

@[simp] theorem SetFlagChr_chrSize (a : Int) (f : CdlChrFlags) :
    (s.SetFlagChr fv a f).chrSize = s.chrSize := by
  unfold SetFlagChr
  dsimp only
  split_ifs <;> simp [setByte]

@[simp] theorem SetFlagChr_length (a : Int) (f : CdlChrFlags) :
    (s.SetFlagChr fv a f).cdlData.length = s.cdlData.length := by
  unfold SetFlagChr
  dsimp only
  split_ifs <;> simp [setByte]

theorem SetFlagPrg_wellFormed (a : Int) (f : CdlPrgFlags) (h : s.WellFormed) :
    (s.SetFlagPrg fv a f).WellFormed := by
  unfold WellFormed at *
  simp [h]

theorem SetFlagChr_wellFormed (a : Int) (f : CdlChrFlags) (h : s.WellFormed) :
    (s.SetFlagChr fv a f).WellFormed := by
  unfold WellFormed at *
  simp [h]

theorem SetFlagPrg_byteAt_ne (a : Int) (f : CdlPrgFlags) {j : Nat} (h : a.toNat ≠ j) :
    (s.SetFlagPrg fv a f).byteAt j = s.byteAt j := by
  unfold SetFlagPrg
  dsimp only
  split_ifs <;> simp [byteAt, setByte, List.getElem?_set, h]

theorem SetFlagChr_byteAt_ne (a : Int) (f : CdlChrFlags) {j : Nat}
    (h : s.prgSize + a.toNat ≠ j) :
    (s.SetFlagChr fv a f).byteAt j = s.byteAt j := by
  unfold SetFlagChr
  dsimp only
  split_ifs <;> simp [byteAt, setByte, List.getElem?_set, h]

/-- After an in-range program flag-setter call either nothing changed or the
targeted byte has the flag. -/
theorem SetFlagPrg_eq_or_has (a : Int) (f : CdlPrgFlags) (hwf : s.WellFormed)
    (h0 : a ≥ 0) (h1 : a < toInt32 s.prgSize) :
    s.SetFlagPrg fv a f = s ∨
      (s.SetFlagPrg fv a f).byteAt a.toNat &&& toUInt8 (fv.prg f) = toUInt8 (fv.prg f) := by
  have hlen := toNat_lt_length_prg s hwf h0 h1
  unfold SetFlagPrg
  dsimp only
  split_ifs
  all_goals first
    | (left; rfl)
    | (right
       simp only [byteAt, setByte, List.getD_eq_getElem?_getD, List.getElem?_set, List.length_set,
         if_true, hlen, Option.getD_some]
       exact or_and_self _ _)

/-- After an in-range graphics flag-setter call the targeted byte has the flag. -/
theorem SetFlagChr_has (a : Int) (f : CdlChrFlags) (hwf : s.WellFormed)
    (h0 : a ≥ 0) (h1 : a < toInt32 s.chrSize) :
    (s.SetFlagChr fv a f).byteAt (s.prgSize + a.toNat) &&& toUInt8 (fv.chr f)
      = toUInt8 (fv.chr f) := by
  have hlen := toNat_lt_length_chr s hwf h0 h1
  by_cases hhas : s.byteAt (s.prgSize + a.toNat) &&& toUInt8 (fv.chr f) = toUInt8 (fv.chr f)
  · rw [SetFlagChr_of_has fv s a f hhas]
    exact hhas
  · unfold SetFlagChr
    dsimp only
    rw [if_pos ⟨h0, h1⟩, if_pos hhas]
    split_ifs
    all_goals
      simp only [byteAt, setByte, List.getD_eq_getElem?_getD, List.getElem?_set, List.length_set,
         if_true, hlen, Option.getD_some]
      exact or_and_self _ _

/-! ### The program flag-setter, case by case -/

theorem prg_ne_of_disjoint (hfv : fv.Disjoint) :
    fv.Code ≠ fv.Data ∧ fv.JumpTarget ≠ fv.Code ∧ fv.JumpTarget ≠ fv.Data ∧
      fv.SubEntryPoint ≠ fv.Code ∧ fv.SubEntryPoint ≠ fv.Data := by
  obtain ⟨_, ⟨hc, hd, hj, hs, _, _⟩, ⟨h1, h2, h3, h4, h5, _⟩, _⟩ := hfv
  refine ⟨?_, ?_, ?_, ?_, ?_⟩
  · intro h; rw [h, Nat.and_self] at h1; exact hd h1
  · intro h; rw [h, Nat.and_self] at h2; exact hc h2
  · intro h; rw [h, Nat.and_self] at h4; exact hd h4
  · intro h; rw [h, Nat.and_self] at h3; exact hc h3
  · intro h; rw [h, Nat.and_self] at h5; exact hd h5

/-- `SetFlag(a, Code)` on a byte that has neither `Code` nor `Data`. -/
theorem SetFlagPrg_code_fresh (a : Int) (h0 : a ≥ 0) (h1 : a < toInt32 s.prgSize)
    (hc : s.byteAt a.toNat &&& toUInt8 fv.Code ≠ toUInt8 fv.Code)
    (hd : s.byteAt a.toNat &&& toUInt8 fv.Data ≠ toUInt8 fv.Data) :
    s.SetFlagPrg fv a .Code =
      { s with cdlData := s.cdlData.set a.toNat (s.byteAt a.toNat ||| toUInt8 fv.Code),
               codeSize := incU32 s.codeSize } := by
  unfold SetFlagPrg
  simp [CdlFlagValues.prg, IsData, setByte, h0, h1, hc, hd]

/-- `SetFlag(a, Code)` on a byte that has `Data` but not `Code`. -/
theorem SetFlagPrg_code_demote (a : Int) (hwf : s.WellFormed) (h0 : a ≥ 0)
    (h1 : a < toInt32 s.prgSize)
    (hc : s.byteAt a.toNat &&& toUInt8 fv.Code ≠ toUInt8 fv.Code)
    (hd : s.byteAt a.toNat &&& toUInt8 fv.Data = toUInt8 fv.Data) :
    s.SetFlagPrg fv a .Code =
      { s with cdlData := s.cdlData.set a.toNat
                 (clearBits (s.byteAt a.toNat) fv.Data ||| toUInt8 fv.Code),
               dataSize := decU32 s.dataSize,
               codeSize := incU32 s.codeSize } := by
  have hlen := toNat_lt_length_prg s hwf h0 h1
  have hd1 : IsData fv s a.toNat = true := by simp [IsData, hd]
  unfold SetFlagPrg
  dsimp only [CdlFlagValues.prg]
  rw [if_pos ⟨h0, h1⟩, if_pos hc, if_pos rfl, if_pos hd1]
  simp [setByte, byteAt, hlen]

/-- `SetFlag(a, Data)` on a byte that has neither `Code` nor `Data`. -/
theorem SetFlagPrg_data_fresh (hfv : fv.Disjoint) (a : Int) (h0 : a ≥ 0)
    (h1 : a < toInt32 s.prgSize)
    (hc : s.byteAt a.toNat &&& toUInt8 fv.Code ≠ toUInt8 fv.Code)
    (hd : s.byteAt a.toNat &&& toUInt8 fv.Data ≠ toUInt8 fv.Data) :
    s.SetFlagPrg fv a .Data =
      { s with cdlData := s.cdlData.set a.toNat (s.byteAt a.toNat ||| toUInt8 fv.Data),
               dataSize := incU32 s.dataSize } := by
  have hne := (prg_ne_of_disjoint fv hfv).1
  unfold SetFlagPrg
  simp [CdlFlagValues.prg, IsCode, setByte, h0, h1, hc, hd, hne.symm]

/-- `SetFlag(a, Data)` on a byte that has `Code` changes nothing. -/
theorem SetFlagPrg_data_code (hfv : fv.Disjoint) (a : Int)
    (hc : s.byteAt a.toNat &&& toUInt8 fv.Code = toUInt8 fv.Code) :
    s.SetFlagPrg fv a .Data = s := by
  have hne := (prg_ne_of_disjoint fv hfv).1
  unfold SetFlagPrg
  simp [CdlFlagValues.prg, IsCode, hc, hne.symm]

/-- `SetFlag(a, f)` for an annotation flag `f` that the byte does not have. -/
theorem SetFlagPrg_annotate (hfv : fv.Disjoint) (a : Int) (f : CdlPrgFlags)
    (hf : f = .JumpTarget ∨ f = .SubEntryPoint) (h0 : a ≥ 0) (h1 : a < toInt32 s.prgSize)
    (hm : s.byteAt a.toNat &&& toUInt8 (fv.prg f) ≠ toUInt8 (fv.prg f)) :
    s.SetFlagPrg fv a f =
      { s with cdlData := s.cdlData.set a.toNat (s.byteAt a.toNat ||| toUInt8 (fv.prg f)) } := by
  obtain ⟨_, hjc, hjd, hsc, hsd⟩ := prg_ne_of_disjoint fv hfv
  unfold SetFlagPrg
  rcases hf with rfl | rfl
  · simp only [CdlFlagValues.prg] at hm ⊢
    simp [setByte, h0, h1, hm, hjc, hjd]
  · simp only [CdlFlagValues.prg] at hm ⊢
    simp [setByte, h0, h1, hm, hsc, hsd]

/-! ### What a program flag-setter call does to the classification of its byte -/

theorem IsCode_eq (i : Nat) : IsCode fv s i = hasFlag fv.Code (s.byteAt i) := rfl

theorem IsData_eq (i : Nat) : IsData fv s i = hasFlag fv.Data (s.byteAt i) := rfl

theorem byteAt_mk_set {a : Nat} (v : Nat) (h : a < s.cdlData.length) (t : CodeDataLogger)
    (ht : t.cdlData = s.cdlData.set a v) : t.byteAt a = v := by
  simp [byteAt, ht, h]

/-- An in-range `SetFlag(a, Code)`: afterwards the byte has `Code`, and it has
`Data` only when it had both `Code` and `Data` before. -/
theorem SetFlagPrg_code_spec (hfv : fv.Disjoint) (hwf : s.WellFormed) (a : Int) (h0 : a ≥ 0)
    (h1 : a < toInt32 s.prgSize) :
    hasFlag fv.Code ((s.SetFlagPrg fv a .Code).byteAt a.toNat) = true ∧
    hasFlag fv.Data ((s.SetFlagPrg fv a .Code).byteAt a.toNat) =
      (hasFlag fv.Code (s.byteAt a.toNat) && hasFlag fv.Data (s.byteAt a.toNat)) := by
  have hlen := toNat_lt_length_prg s hwf h0 h1
  obtain ⟨⟨hc8, hd8, _, _, _, _⟩, ⟨_, hd0, _, _, _, _⟩, ⟨hcd, _, _, _, _, _⟩, _⟩ := hfv
  by_cases hc : s.byteAt a.toNat &&& toUInt8 fv.Code = toUInt8 fv.Code
  · rw [SetFlagPrg_of_has fv s a .Code hc]
    have hc1 := (hasFlag_eq_true_iff fv.Code _).2 hc
    simp [hc1]
  · have hc1 := (hasFlag_eq_false_iff fv.Code _).2 hc
    by_cases hd : s.byteAt a.toNat &&& toUInt8 fv.Data = toUInt8 fv.Data
    · rw [SetFlagPrg_code_demote fv s a hwf h0 h1 hc hd, byteAt_mk_set s _ hlen _ rfl,
        hasFlag_or_self, hasFlag_or_of_disjoint _ hc8 hd8 hcd,
        hasFlag_clearBits_self _ hd8 hd0, hc1]
      simp
    · have hd1 := (hasFlag_eq_false_iff fv.Data _).2 hd
      rw [SetFlagPrg_code_fresh fv s a h0 h1 hc hd, byteAt_mk_set s _ hlen _ rfl,
        hasFlag_or_self, hasFlag_or_of_disjoint _ hc8 hd8 hcd, hc1, hd1]
      simp

/-- An in-range `SetFlag(a, Data)`: the `Code` classification of the byte is
unchanged, and afterwards the byte has `Data` exactly when it had `Data` before or
did not have `Code`. -/
theorem SetFlagPrg_data_spec (hfv : fv.Disjoint) (hwf : s.WellFormed) (a : Int) (h0 : a ≥ 0)
    (h1 : a < toInt32 s.prgSize) :
    hasFlag fv.Code ((s.SetFlagPrg fv a .Data).byteAt a.toNat) =
      hasFlag fv.Code (s.byteAt a.toNat) ∧
    hasFlag fv.Data ((s.SetFlagPrg fv a .Data).byteAt a.toNat) =
      (hasFlag fv.Data (s.byteAt a.toNat) || !hasFlag fv.Code (s.byteAt a.toNat)) := by
  have hlen := toNat_lt_length_prg s hwf h0 h1
  have hfv1 := hfv
  obtain ⟨⟨hc8, hd8, _, _, _, _⟩, ⟨_, hd0, _, _, _, _⟩, ⟨hcd, _, _, _, _, _⟩, _⟩ := hfv1
  have hdc : fv.Data &&& fv.Code = 0 := by rw [Nat.and_comm]; exact hcd
  by_cases hd : s.byteAt a.toNat &&& toUInt8 fv.Data = toUInt8 fv.Data
  · rw [SetFlagPrg_of_has fv s a .Data hd]
    have hd1 := (hasFlag_eq_true_iff fv.Data _).2 hd
    simp [hd1]
  · have hd1 := (hasFlag_eq_false_iff fv.Data _).2 hd
    by_cases hc : s.byteAt a.toNat &&& toUInt8 fv.Code = toUInt8 fv.Code
    · have hc1 := (hasFlag_eq_true_iff fv.Code _).2 hc
      rw [SetFlagPrg_data_code fv s hfv a hc, hc1, hd1]
      simp
    · have hc1 := (hasFlag_eq_false_iff fv.Code _).2 hc
      rw [SetFlagPrg_data_fresh fv s hfv a h0 h1 hc hd, byteAt_mk_set s _ hlen _ rfl,
        hasFlag_or_self, hasFlag_or_of_disjoint _ hd8 hc8 hdc, hc1]
      simp

/-- A `SetFlag(a, f)` with an annotation flag `f` leaves the `Code` and `Data`
classification of every byte unchanged. -/
theorem SetFlagPrg_annotation_spec (hfv : fv.Disjoint) (a : Int) (f : CdlPrgFlags)
    (hf : f = .JumpTarget ∨ f = .SubEntryPoint) (j : Nat) :
    hasFlag fv.Code ((s.SetFlagPrg fv a f).byteAt j) = hasFlag fv.Code (s.byteAt j) ∧
    hasFlag fv.Data ((s.SetFlagPrg fv a f).byteAt j) = hasFlag fv.Data (s.byteAt j) := by
  by_cases hj : a.toNat = j
  swap
  · rw [SetFlagPrg_byteAt_ne fv s a f hj]
    exact ⟨rfl, rfl⟩
  subst hj
  by_cases hin : a ≥ 0 ∧ a < toInt32 s.prgSize
  swap
  · rw [SetFlagPrg_of_not_inRange fv s a f hin]
    exact ⟨rfl, rfl⟩
  by_cases hm : s.byteAt a.toNat &&& toUInt8 (fv.prg f) = toUInt8 (fv.prg f)
  · rw [SetFlagPrg_of_has fv s a f hm]
    exact ⟨rfl, rfl⟩
  by_cases hlen : a.toNat < s.cdlData.length
  swap
  · rw [SetFlagPrg_annotate fv s hfv a f hf hin.1 hin.2 hm]
    simp [byteAt, List.set_eq_of_length_le (Nat.le_of_not_lt hlen)]
  have hfv1 := hfv
  obtain ⟨⟨hc8, hd8, hj8, hs8, _, _⟩, _, ⟨_, hcj, hcs, hdj, hds, _⟩, _⟩ := hfv1
  rw [SetFlagPrg_annotate fv s hfv a f hf hin.1 hin.2 hm, byteAt_mk_set s _ hlen _ rfl]
  rcases hf with rfl | rfl
  · simp only [CdlFlagValues.prg]
    exact ⟨hasFlag_or_of_disjoint _ hj8 hc8 (by rw [Nat.and_comm]; exact hcj),
      hasFlag_or_of_disjoint _ hj8 hd8 (by rw [Nat.and_comm]; exact hdj)⟩
  · simp only [CdlFlagValues.prg]
    exact ⟨hasFlag_or_of_disjoint _ hs8 hc8 (by rw [Nat.and_comm]; exact hcs),
      hasFlag_or_of_disjoint _ hs8 hd8 (by rw [Nat.and_comm]; exact hds)⟩

/-! ### Invariant I1 -/

theorem Reset_wellFormed : (Reset s).WellFormed := by
  simp [WellFormed, Reset]

theorem Reset_byteAt (i : Nat) : (Reset s).byteAt i = 0 := by
  simp only [byteAt, Reset, List.getD_eq_getElem?_getD, List.getElem?_replicate]
  split <;> rfl

theorem Reset_exclusive (hfv : fv.Disjoint) : CodeDataExclusive fv (Reset s) := by
  intro i _ h
  have hc := h.1
  rw [IsCode_eq, Reset_byteAt, hasFlag_zero hfv.1.1 hfv.2.1.1] at hc
  exact Bool.false_ne_true hc

theorem SetFlagPrg_exclusive (hfv : fv.Disjoint) (hwf : s.WellFormed) (a : Int)
    (f : CdlPrgFlags) (h : CodeDataExclusive fv s) :
    CodeDataExclusive fv (s.SetFlagPrg fv a f) := by
  intro i hi
  rw [SetFlagPrg_prgSize] at hi
  have hex := h i hi
  rw [IsCode_eq, IsData_eq] at hex ⊢
  by_cases hj : a.toNat = i
  swap
  · rw [SetFlagPrg_byteAt_ne fv s a f hj]; exact hex
  subst hj
  by_cases hin : a ≥ 0 ∧ a < toInt32 s.prgSize
  swap
  · rw [SetFlagPrg_of_not_inRange fv s a f hin]; exact hex
  cases f with
  | Code =>
    obtain ⟨h1, h2⟩ := SetFlagPrg_code_spec fv s hfv hwf a hin.1 hin.2
    rw [h1, h2]
    revert hex
    cases hasFlag fv.Code (s.byteAt a.toNat) <;> cases hasFlag fv.Data (s.byteAt a.toNat) <;> simp
  | Data =>
    obtain ⟨h1, h2⟩ := SetFlagPrg_data_spec fv s hfv hwf a hin.1 hin.2
    rw [h1, h2]
    revert hex
    cases hasFlag fv.Code (s.byteAt a.toNat) <;> cases hasFlag fv.Data (s.byteAt a.toNat) <;> simp
  | JumpTarget =>
    obtain ⟨h1, h2⟩ := SetFlagPrg_annotation_spec fv s hfv a .JumpTarget (Or.inl rfl) a.toNat
    rw [h1, h2]; exact hex
  | SubEntryPoint =>
    obtain ⟨h1, h2⟩ := SetFlagPrg_annotation_spec fv s hfv a .SubEntryPoint (Or.inr rfl) a.toNat
    rw [h1, h2]; exact hex

theorem SetFlagChr_exclusive (a : Int) (f : CdlChrFlags) (h : CodeDataExclusive fv s) :
    CodeDataExclusive fv (s.SetFlagChr fv a f) := by
  intro i hi
  rw [SetFlagChr_prgSize] at hi
  have hex := h i hi
  rw [IsCode_eq, IsData_eq] at hex ⊢
  rw [SetFlagChr_byteAt_ne fv s a f (by omega)]
  exact hex

end Bytes

/-- A property that holds after `Reset` and is kept by both flag-setters holds
after every sequence of flag-setter calls. -/
theorem runCalls_induction (fv : CdlFlagValues) (P : CodeDataLogger → Prop)
    (hprg : ∀ s a f, P s → P (s.SetFlagPrg fv a f))
    (hchr : ∀ s a f, P s → P (s.SetFlagChr fv a f))
    (s : CodeDataLogger) (hs : P s) (calls : List CdlCall) : P (runCalls fv s calls) := by
  induction calls generalizing s with
  | nil => exact hs
  | cons c cs ih =>
    simp only [runCalls, List.foldl_cons]
    apply ih
    cases c with
    | prg a f => exact hprg s a f hs
    | chr a f => exact hchr s a f hs

theorem runCalls_prgSize (fv : CdlFlagValues) (s : CodeDataLogger) (calls : List CdlCall) :
    (runCalls fv s calls).prgSize = s.prgSize :=
  runCalls_induction fv (fun t => t.prgSize = s.prgSize)
    (fun t a f h => by simpa using h)
    (fun t a f h => by simpa using h) s rfl calls

theorem runCalls_chrSize (fv : CdlFlagValues) (s : CodeDataLogger) (calls : List CdlCall) :
    (runCalls fv s calls).chrSize = s.chrSize :=
  runCalls_induction fv (fun t => t.chrSize = s.chrSize)
    (fun t a f h => by simpa using h)
    (fun t a f h => by simpa using h) s rfl calls

/-- Every state reached from `Reset` by flag-setter calls is well-formed and
satisfies invariant I1. -/
theorem reachable_exclusive (fv : CdlFlagValues) (hfv : fv.Disjoint) (s0 : CodeDataLogger)
    (calls : List CdlCall) :
    (runCalls fv (Reset s0) calls).WellFormed ∧
      CodeDataExclusive fv (runCalls fv (Reset s0) calls) :=
  runCalls_induction fv (fun t => t.WellFormed ∧ CodeDataExclusive fv t)
    (fun t a f h => ⟨SetFlagPrg_wellFormed fv t a f h.1, SetFlagPrg_exclusive fv t hfv h.1 a f h.2⟩)
    (fun t a f h => ⟨SetFlagChr_wellFormed fv t a f h.1, SetFlagChr_exclusive fv t a f h.2⟩)
    (Reset s0) ⟨Reset_wellFormed s0, Reset_exclusive fv s0 hfv⟩ calls

section CodeWins

variable (fv : CdlFlagValues) (t : CodeDataLogger)

theorem setDataThenCode_spec (hfv : fv.Disjoint) (hwf : t.WellFormed) (a : Int) (h0 : a ≥ 0)
    (h1 : a < toInt32 t.prgSize)
    (hex : ¬ (t.IsCode fv a.toNat = true ∧ t.IsData fv a.toNat = true)) :
    (setDataThenCode fv a t).IsCode fv a.toNat = true ∧
      (setDataThenCode fv a t).IsData fv a.toNat = false := by
  obtain ⟨d1, d2⟩ := SetFlagPrg_data_spec fv t hfv hwf a h0 h1
  have hwf1 := SetFlagPrg_wellFormed fv t a .Data hwf
  have h11 : a < toInt32 (t.SetFlagPrg fv a .Data).prgSize := by
    rw [SetFlagPrg_prgSize]; exact h1
  obtain ⟨c1, c2⟩ := SetFlagPrg_code_spec fv _ hfv hwf1 a h0 h11
  rw [IsCode_eq, IsData_eq] at hex ⊢
  unfold setDataThenCode
  rw [c1, c2, d1, d2]
  revert hex
  cases hasFlag fv.Code (t.byteAt a.toNat) <;> cases hasFlag fv.Data (t.byteAt a.toNat) <;> simp

theorem setCodeThenData_spec (hfv : fv.Disjoint) (hwf : t.WellFormed) (a : Int) (h0 : a ≥ 0)
    (h1 : a < toInt32 t.prgSize)
    (hex : ¬ (t.IsCode fv a.toNat = true ∧ t.IsData fv a.toNat = true)) :
    (setCodeThenData fv a t).IsCode fv a.toNat = true ∧
      (setCodeThenData fv a t).IsData fv a.toNat = false := by
  obtain ⟨c1, c2⟩ := SetFlagPrg_code_spec fv t hfv hwf a h0 h1
  have hwf1 := SetFlagPrg_wellFormed fv t a .Code hwf
  have h11 : a < toInt32 (t.SetFlagPrg fv a .Code).prgSize := by
    rw [SetFlagPrg_prgSize]; exact h1
  obtain ⟨d1, d2⟩ := SetFlagPrg_data_spec fv _ hfv hwf1 a h0 h11
  rw [IsCode_eq, IsData_eq] at hex ⊢
  unfold setCodeThenData
  rw [d1, d2, c1, c2]
  revert hex
  cases hasFlag fv.Code (t.byteAt a.toNat) <;> cases hasFlag fv.Data (t.byteAt a.toNat) <;> simp

theorem setDataThenCode_fixed (hfv : fv.Disjoint) (a : Int)
    (hc : t.IsCode fv a.toNat = true) : setDataThenCode fv a t = t := by
  have hc1 : t.byteAt a.toNat &&& toUInt8 fv.Code = toUInt8 fv.Code :=
    (hasFlag_eq_true_iff _ _).1 hc
  unfold setDataThenCode
  rw [SetFlagPrg_data_code fv t hfv a hc1]
  exact SetFlagPrg_of_has fv t a .Code hc1

theorem setCodeThenData_fixed (hfv : fv.Disjoint) (a : Int)
    (hc : t.IsCode fv a.toNat = true) : setCodeThenData fv a t = t := by
  have hc1 : t.byteAt a.toNat &&& toUInt8 fv.Code = toUInt8 fv.Code :=
    (hasFlag_eq_true_iff _ _).1 hc
  unfold setCodeThenData
  rw [SetFlagPrg_of_has fv t a .Code hc1]
  exact SetFlagPrg_data_code fv t hfv a hc1

end CodeWins

section Counters

variable (fv : CdlFlagValues) (s : CodeDataLogger)

theorem incU32_of_lt {x : Nat} (h : x + 1 < 2 ^ 32) : incU32 x = x + 1 := by
  unfold incU32; exact Nat.mod_eq_of_lt h

theorem decU32_of_pos {x : Nat} (h0 : 0 < x) (h : x < 2 ^ 32) : decU32 x = x - 1 := by
  unfold decU32; omega

theorem countPrg_le (m : Nat) : countPrg s m ≤ s.prgSize := by
  unfold countPrg
  exact Nat.le_trans (List.countP_le_length _) (List.length_take_le _ _)

/-- Effect on the count of one write into the program region. -/
theorem countPrg_set (t : CodeDataLogger) (a v m : Nat) (hwf : s.WellFormed)
    (ha : a < s.prgSize) (hp : t.prgSize = s.prgSize) (hd : t.cdlData = s.cdlData.set a v) :
    countPrg t m + (if hasFlag m (s.byteAt a) then 1 else 0)
      = countPrg s m + (if hasFlag m v then 1 else 0) := by
  unfold WellFormed at hwf
  have hlen : a < (s.cdlData.take s.prgSize).length := by
    rw [List.length_take]; omega
  have hb : (s.cdlData.take s.prgSize)[a] = s.byteAt a := by
    have h2 : a < s.cdlData.length := by omega
    simp [byteAt, h2]
  have hle := List.boole_getElem_le_countP (hasFlag m) (s.cdlData.take s.prgSize) a hlen
  unfold countPrg
  rw [hp, hd, List.set_take, List.countP_set _ _ _ _ hlen]
  rw [hb] at hle ⊢
  omega

/-- A write outside the program region does not change the count. -/
theorem countPrg_of_take_eq (t : CodeDataLogger) (m : Nat) (hp : t.prgSize = s.prgSize)
    (hd : t.cdlData.take s.prgSize = s.cdlData.take s.prgSize) :
    countPrg t m = countPrg s m := by
  unfold countPrg
  rw [hp, hd]

theorem Reset_countPrg (m : Nat) (hm : m < 256) (h0 : m ≠ 0) : countPrg (Reset s) m = 0 := by
  unfold countPrg
  rw [List.countP_eq_zero]
  intro b hb
  have hb1 := List.mem_of_mem_take hb
  simp only [Reset] at hb1
  rw [List.eq_of_mem_replicate hb1, hasFlag_zero hm h0]
  exact Bool.false_ne_true

theorem take_set_of_le {α : Type} (l : List α) (v : α) {n m : Nat} (h : m ≤ n) :
    (l.set n v).take m = l.take m := by
  rw [List.set_take]
  apply List.set_eq_of_length_le
  exact Nat.le_trans (List.length_take_le _ _) h

theorem SetFlagChr_take (a : Int) (f : CdlChrFlags) :
    (s.SetFlagChr fv a f).cdlData.take s.prgSize = s.cdlData.take s.prgSize := by
  unfold SetFlagChr
  dsimp only
  split_ifs <;> simp [setByte, take_set_of_le]

theorem SetFlagChr_codeSize (a : Int) (f : CdlChrFlags) :
    (s.SetFlagChr fv a f).codeSize = s.codeSize := by
  unfold SetFlagChr
  dsimp only
  split_ifs <;> simp [setByte]

theorem SetFlagChr_dataSize (a : Int) (f : CdlChrFlags) :
    (s.SetFlagChr fv a f).dataSize = s.dataSize := by
  unfold SetFlagChr
  dsimp only
  split_ifs <;> simp [setByte]

theorem SetFlagChr_countersExact (a : Int) (f : CdlChrFlags) (h : PrgCountersExact fv s) :
    PrgCountersExact fv (s.SetFlagChr fv a f) := by
  unfold PrgCountersExact at *
  rw [SetFlagChr_codeSize, SetFlagChr_dataSize,
    countPrg_of_take_eq s _ fv.Code (SetFlagChr_prgSize fv s a f) (SetFlagChr_take fv s a f),
    countPrg_of_take_eq s _ fv.Data (SetFlagChr_prgSize fv s a f) (SetFlagChr_take fv s a f)]
  exact h

theorem SetFlagPrg_countersExact (hfv : fv.Disjoint) (hwf : s.WellFormed)
    (hsz : s.prgSize < 2 ^ 32) (a : Int) (f : CdlPrgFlags) (h : PrgCountersExact fv s) :
    PrgCountersExact fv (s.SetFlagPrg fv a f) := by
  by_cases hin : a ≥ 0 ∧ a < toInt32 s.prgSize
  swap
  · rw [SetFlagPrg_of_not_inRange fv s a f hin]; exact h
  by_cases hm : s.byteAt a.toNat &&& toUInt8 (fv.prg f) = toUInt8 (fv.prg f)
  · rw [SetFlagPrg_of_has fv s a f hm]; exact h
  obtain ⟨h0, h1⟩ := hin
  have ha : a.toNat < s.prgSize := by
    have := toInt32_le s.prgSize
    omega
  have hfv1 := hfv
  obtain ⟨⟨hc8, hd8, hj8, hs8, _, _⟩, ⟨_, hd0, _, _, _, _⟩, ⟨hcd, hcj, hcs, hdj, hds, _⟩, _⟩ := hfv1
  have hdc : fv.Data &&& fv.Code = 0 := by rw [Nat.and_comm]; exact hcd
  obtain ⟨hcode, hdata⟩ := h
  unfold PrgCountersExact
  cases f with
  | Code =>
    simp only [CdlFlagValues.prg] at hm
    have hc1 := (hasFlag_eq_false_iff fv.Code _).2 hm
    by_cases hd : s.byteAt a.toNat &&& toUInt8 fv.Data = toUInt8 fv.Data
    · have hd1 := (hasFlag_eq_true_iff fv.Data _).2 hd
      rw [SetFlagPrg_code_demote fv s a hwf h0 h1 hm hd]
      have e1 := countPrg_set s { s with
          cdlData := s.cdlData.set a.toNat
            (clearBits (s.byteAt a.toNat) fv.Data ||| toUInt8 fv.Code),
          dataSize := decU32 s.dataSize, codeSize := incU32 s.codeSize } a.toNat _ fv.Code
        hwf ha rfl rfl
      have e2 := countPrg_set s { s with
          cdlData := s.cdlData.set a.toNat
            (clearBits (s.byteAt a.toNat) fv.Data ||| toUInt8 fv.Code),
          dataSize := decU32 s.dataSize, codeSize := incU32 s.codeSize } a.toNat _ fv.Data
        hwf ha rfl rfl
      rw [hasFlag_or_self, hc1] at e1
      rw [hasFlag_or_of_disjoint _ hc8 hd8 hcd, hasFlag_clearBits_self _ hd8 hd0, hd1] at e2
      simp only [if_true, Bool.false_eq_true, if_false, Nat.add_zero] at e1 e2
      have l1 := countPrg_le { s with
          cdlData := s.cdlData.set a.toNat
            (clearBits (s.byteAt a.toNat) fv.Data ||| toUInt8 fv.Code),
          dataSize := decU32 s.dataSize, codeSize := incU32 s.codeSize } fv.Code
      have l2 := countPrg_le s fv.Data
      dsimp only at l1 ⊢
      have hi := incU32_of_lt (x := s.codeSize) (by omega)
      have hdv := decU32_of_pos (x := s.dataSize) (by omega) (by omega)
      omega
    · have hd1 := (hasFlag_eq_false_iff fv.Data _).2 hd
      rw [SetFlagPrg_code_fresh fv s a h0 h1 hm hd]
      have e1 := countPrg_set s { s with
          cdlData := s.cdlData.set a.toNat (s.byteAt a.toNat ||| toUInt8 fv.Code),
          codeSize := incU32 s.codeSize } a.toNat _ fv.Code hwf ha rfl rfl
      have e2 := countPrg_set s { s with
          cdlData := s.cdlData.set a.toNat (s.byteAt a.toNat ||| toUInt8 fv.Code),
          codeSize := incU32 s.codeSize } a.toNat _ fv.Data hwf ha rfl rfl
      rw [hasFlag_or_self, hc1] at e1
      rw [hasFlag_or_of_disjoint _ hc8 hd8 hcd, hd1] at e2
      simp only [if_true, Bool.false_eq_true, if_false, Nat.add_zero] at e1 e2
      have l1 := countPrg_le { s with
          cdlData := s.cdlData.set a.toNat (s.byteAt a.toNat ||| toUInt8 fv.Code),
          codeSize := incU32 s.codeSize } fv.Code
      dsimp only at l1 ⊢
      have hi := incU32_of_lt (x := s.codeSize) (by omega)
      omega
  | Data =>
    simp only [CdlFlagValues.prg] at hm
    have hd1 := (hasFlag_eq_false_iff fv.Data _).2 hm
    by_cases hc : s.byteAt a.toNat &&& toUInt8 fv.Code = toUInt8 fv.Code
    · rw [SetFlagPrg_data_code fv s hfv a hc]; exact ⟨hcode, hdata⟩
    · have hc1 := (hasFlag_eq_false_iff fv.Code _).2 hc
      rw [SetFlagPrg_data_fresh fv s hfv a h0 h1 hc hm]
      have e1 := countPrg_set s { s with
          cdlData := s.cdlData.set a.toNat (s.byteAt a.toNat ||| toUInt8 fv.Data),
          dataSize := incU32 s.dataSize } a.toNat _ fv.Code hwf ha rfl rfl
      have e2 := countPrg_set s { s with
          cdlData := s.cdlData.set a.toNat (s.byteAt a.toNat ||| toUInt8 fv.Data),
          dataSize := incU32 s.dataSize } a.toNat _ fv.Data hwf ha rfl rfl
      rw [hasFlag_or_of_disjoint _ hd8 hc8 hdc, hc1] at e1
      rw [hasFlag_or_self, hd1] at e2
      simp only [if_true, Bool.false_eq_true, if_false, Nat.add_zero] at e1 e2
      have l1 := countPrg_le { s with
          cdlData := s.cdlData.set a.toNat (s.byteAt a.toNat ||| toUInt8 fv.Data),
          dataSize := incU32 s.dataSize } fv.Data
      dsimp only at l1 ⊢
      have hi := incU32_of_lt (x := s.dataSize) (by omega)
      omega
  | JumpTarget =>
    rw [SetFlagPrg_annotate fv s hfv a .JumpTarget (Or.inl rfl) h0 h1 hm]
    have e1 := countPrg_set s { s with
        cdlData := s.cdlData.set a.toNat (s.byteAt a.toNat ||| toUInt8 fv.JumpTarget) }
      a.toNat _ fv.Code hwf ha rfl rfl
    have e2 := countPrg_set s { s with
        cdlData := s.cdlData.set a.toNat (s.byteAt a.toNat ||| toUInt8 fv.JumpTarget) }
      a.toNat _ fv.Data hwf ha rfl rfl
    rw [hasFlag_or_of_disjoint _ hj8 hc8 (by rw [Nat.and_comm]; exact hcj)] at e1
    rw [hasFlag_or_of_disjoint _ hj8 hd8 (by rw [Nat.and_comm]; exact hdj)] at e2
    simp only [CdlFlagValues.prg]
    omega
  | SubEntryPoint =>
    rw [SetFlagPrg_annotate fv s hfv a .SubEntryPoint (Or.inr rfl) h0 h1 hm]
    have e1 := countPrg_set s { s with
        cdlData := s.cdlData.set a.toNat (s.byteAt a.toNat ||| toUInt8 fv.SubEntryPoint) }
      a.toNat _ fv.Code hwf ha rfl rfl
    have e2 := countPrg_set s { s with
        cdlData := s.cdlData.set a.toNat (s.byteAt a.toNat ||| toUInt8 fv.SubEntryPoint) }
      a.toNat _ fv.Data hwf ha rfl rfl
    rw [hasFlag_or_of_disjoint _ hs8 hc8 (by rw [Nat.and_comm]; exact hcs)] at e1
    rw [hasFlag_or_of_disjoint _ hs8 hd8 (by rw [Nat.and_comm]; exact hds)] at e2
    simp only [CdlFlagValues.prg]
    omega

end Counters

section GraphicsCounters

variable (fv : CdlFlagValues)

/-- The state after `SetFlag(0, Read)` on a fresh logger with one graphics byte. -/
theorem run_read (hfv : fv.Disjoint) :
    runCalls fv (Reset (create 0 1)) [.chr 0 .Read] =
      { prgSize := 0, chrSize := 1, cdlData := [fv.Read], codeSize := 0,
        dataSize := 0, usedChrSize := 1, drawnChrSize := 0, readChrSize := 1 } := by
  obtain ⟨⟨_, _, _, _, hd8, hr8⟩, ⟨_, _, _, _, hd0, hr0⟩, _, hdr⟩ := hfv
  have h1 : (0 : Int) < toInt32 1 := by decide
  simp [runCalls, CdlCall.run, SetFlagChr, Reset, create, byteAt, setByte, CdlFlagValues.chr,
    toUInt8_of_lt hr8, h1, Ne.symm hr0, incU32]

/-- The state after `SetFlag(0, Read)` and `SetFlag(0, Drawn)` on a fresh logger
with one graphics byte. -/
theorem run_read_drawn (hfv : fv.Disjoint) :
    runCalls fv (Reset (create 0 1)) [.chr 0 .Read, .chr 0 .Drawn] =
      { prgSize := 0, chrSize := 1, cdlData := [fv.Read ||| fv.Drawn], codeSize := 0,
        dataSize := 0, usedChrSize := 2, drawnChrSize := 1, readChrSize := 1 } := by
  obtain ⟨⟨_, _, _, _, hd8, hr8⟩, ⟨_, _, _, _, hd0, hr0⟩, _, hdr⟩ := hfv
  have hne : fv.Drawn ≠ fv.Read := by
    intro h; rw [h, Nat.and_self] at hdr; exact hr0 hdr
  have hrd : fv.Read &&& fv.Drawn = 0 := by rw [Nat.and_comm]; exact hdr
  have h1 : (0 : Int) < toInt32 1 := by decide
  simp [runCalls, CdlCall.run, SetFlagChr, Reset, create, byteAt, setByte, CdlFlagValues.chr,
    toUInt8_of_lt hd8, toUInt8_of_lt hr8, h1, hne, hrd, Ne.symm hr0, Ne.symm hd0, incU32]

/-- `CalculateStats` on a logger with one graphics byte that has `Drawn`. -/
theorem CalculateStats_one_drawn (hfv : fv.Disjoint) (b : Nat)
    (hb : b &&& fv.Drawn = fv.Drawn) (s : CodeDataLogger) (hp : s.prgSize = 0)
    (hc : s.chrSize = 1) (hd : s.cdlData = [b]) :
    CalculateStats fv s =
      { s with codeSize := 0, dataSize := 0, usedChrSize := 1, drawnChrSize := 1,
               readChrSize := 0 } := by
  have hd8 := hfv.1.2.2.2.2.1
  have r0 : List.range (toInt32 0).toNat = [] := by decide
  have r1 : List.range (toInt32 1).toNat = [0] := by decide
  simp [CalculateStats, statsChrStep, IsDrawn, byteAt, hp, hc, hd, r0, r1,
    toUInt8_of_lt hd8, hb, incU32]

end GraphicsCounters

section Ratios

variable (fv : CdlFlagValues)

/-- Every state reached from `Reset` by flag-setter calls is well-formed, keeps
its sizes and has exact program counters. -/
theorem reachable_counters (hfv : fv.Disjoint) (s0 : CodeDataLogger)
    (hsz : s0.prgSize < 2 ^ 32) (calls : List CdlCall) :
    (runCalls fv (Reset s0) calls).WellFormed ∧
      PrgCountersExact fv (runCalls fv (Reset s0) calls) := by
  have h := runCalls_induction fv
    (fun t => (t.WellFormed ∧ t.prgSize < 2 ^ 32) ∧ PrgCountersExact fv t)
    (fun t a f h => ⟨⟨SetFlagPrg_wellFormed fv t a f h.1.1, by simpa using h.1.2⟩,
      SetFlagPrg_countersExact fv t hfv h.1.1 h.1.2 a f h.2⟩)
    (fun t a f h => ⟨⟨SetFlagChr_wellFormed fv t a f h.1.1, by simpa using h.1.2⟩,
      SetFlagChr_countersExact fv t a f h.2⟩)
    (Reset s0)
    ⟨⟨Reset_wellFormed s0, hsz⟩,
      (Reset_countPrg s0 fv.Code hfv.1.1 hfv.2.1.1).symm,
      (Reset_countPrg s0 fv.Data hfv.1.2.1 hfv.2.1.2.1).symm⟩ calls
  exact ⟨h.1.1, h.2⟩

theorem countP_add_le_of_exclusive {α : Type} (p q : α → Bool) (l : List α)
    (h : ∀ b ∈ l, ¬ (p b = true ∧ q b = true)) :
    l.countP p + l.countP q ≤ l.length := by
  induction l with
  | nil => simp
  | cons x xs ih =>
    have hx := h x (List.mem_cons_self _ _)
    have ih1 := ih (fun b hb => h b (List.mem_cons_of_mem _ hb))
    simp only [List.countP_cons, List.length_cons]
    cases hp : p x <;> cases hq : q x <;> simp_all <;> omega

/-- Under invariant I1 the bytes with `Code` and the bytes with `Data` together
are at most all program bytes. -/
theorem countPrg_add_le (s : CodeDataLogger) (hex : CodeDataExclusive fv s) :
    countPrg s fv.Code + countPrg s fv.Data ≤ s.prgSize := by
  unfold countPrg
  refine Nat.le_trans (countP_add_le_of_exclusive _ _ _ ?_) (List.length_take_le _ _)
  intro b hb
  obtain ⟨i, hi, rfl⟩ := List.getElem_of_mem hb
  have hi1 : i < s.prgSize := Nat.lt_of_lt_of_le hi (List.length_take_le _ _)
  have hi2 : i < s.cdlData.length := Nat.lt_of_lt_of_le hi (List.length_take_le' _ _)
  have hb1 : (s.cdlData.take s.prgSize)[i] = s.byteAt i := by
    simp [byteAt, hi2]
  rw [hb1]
  exact hex i hi1

theorem toRat_quotient_mem_unit {n d : Nat} (hd : 0 < d) (h : n ≤ d) :
    0 ≤ (RatioValue.quotient n d).toRat ∧ (RatioValue.quotient n d).toRat ≤ 1 := by
  have hd' : (0 : ℚ) < (d : ℚ) := by exact_mod_cast hd
  have hn : (n : ℚ) ≤ (d : ℚ) := by exact_mod_cast h
  constructor
  · exact div_nonneg (by positivity) (le_of_lt hd')
  · exact (div_le_one hd').2 hn

end Ratios

section Frame

variable (fv : CdlFlagValues) (s : CodeDataLogger)

theorem or_eq_of_and_eq {b m : Nat} (h : b &&& m = m) : b ||| m = b := by
  apply Nat.eq_of_testBit_eq
  intro i
  have hi : (b &&& m).testBit i = m.testBit i := by rw [h]
  rw [Nat.testBit_and] at hi
  rw [Nat.testBit_or]
  revert hi
  cases b.testBit i <;> cases m.testBit i <;> simp

theorem set_getD_self (l : List Nat) (a : Nat) : l.set a (l.getD a 0) = l := by
  induction l generalizing a with
  | nil => rfl
  | cons x xs ih =>
    cases a with
    | zero => rfl
    | succ a =>
      simp only [List.set_cons_succ, List.getD_cons_succ]
      rw [ih]

theorem byteAt_setByte (i v j : Nat) :
    (s.setByte i v).byteAt j = if i = j ∧ i < s.cdlData.length then v else s.byteAt j := by
  by_cases hij : i = j
  · subst hij
    by_cases hl : i < s.cdlData.length
    · simp [byteAt, setByte, hl]
    · simp [byteAt, setByte, hl, List.set_eq_of_length_le (Nat.le_of_not_lt hl)]
  · simp [byteAt, setByte, List.getElem?_set, hij]

theorem prg_eq_code_iff (hfv : fv.Disjoint) (f : CdlPrgFlags) :
    fv.prg f = fv.Code ↔ f = .Code := by
  obtain ⟨hcd, hjc, _, hsc, _⟩ := prg_ne_of_disjoint fv hfv
  cases f <;> simp [CdlFlagValues.prg, hcd.symm, hjc, hsc]

@[simp] theorem SetFlagPrg_usedChrSize (a : Int) (f : CdlPrgFlags) :
    (s.SetFlagPrg fv a f).usedChrSize = s.usedChrSize := by
  unfold SetFlagPrg
  dsimp only
  split_ifs <;> simp [setByte]

@[simp] theorem SetFlagPrg_drawnChrSize (a : Int) (f : CdlPrgFlags) :
    (s.SetFlagPrg fv a f).drawnChrSize = s.drawnChrSize := by
  unfold SetFlagPrg
  dsimp only
  split_ifs <;> simp [setByte]

@[simp] theorem SetFlagPrg_readChrSize (a : Int) (f : CdlPrgFlags) :
    (s.SetFlagPrg fv a f).readChrSize = s.readChrSize := by
  unfold SetFlagPrg
  dsimp only
  split_ifs <;> simp [setByte]

/-- A program flag-setter call with an annotation flag, at an address the range
check accepts, only ORs the flag into the targeted byte. -/
theorem SetFlagPrg_annotation_eq (hfv : fv.Disjoint) (a : Int) (f : CdlPrgFlags)
    (hf : f = .JumpTarget ∨ f = .SubEntryPoint) (h0 : a ≥ 0) (h1 : a < toInt32 s.prgSize) :
    s.SetFlagPrg fv a f =
      { s with cdlData := s.cdlData.set a.toNat (s.byteAt a.toNat ||| fv.prg f) } := by
  have hm8 : toUInt8 (fv.prg f) = fv.prg f := by
    rcases hf with rfl | rfl
    · exact toUInt8_of_lt hfv.1.2.2.1
    · exact toUInt8_of_lt hfv.1.2.2.2.1
  by_cases hm : s.byteAt a.toNat &&& toUInt8 (fv.prg f) = toUInt8 (fv.prg f)
  · rw [SetFlagPrg_of_has fv s a f hm]
    rw [hm8] at hm
    rw [or_eq_of_and_eq hm]
    simp only [byteAt, set_getD_self]
  · rw [SetFlagPrg_annotate fv s hfv a f hf h0 h1 hm, hm8]

/-- An annotation flag-setter call never changes the program counters. -/
theorem SetFlagPrg_annotation_counters (hfv : fv.Disjoint) (a : Int) (f : CdlPrgFlags)
    (hf : f = .JumpTarget ∨ f = .SubEntryPoint) :
    (s.SetFlagPrg fv a f).codeSize = s.codeSize ∧
      (s.SetFlagPrg fv a f).dataSize = s.dataSize := by
  by_cases hin : a ≥ 0 ∧ a < toInt32 s.prgSize
  · rw [SetFlagPrg_annotation_eq fv s hfv a f hf hin.1 hin.2]
    exact ⟨rfl, rfl⟩
  · rw [SetFlagPrg_of_not_inRange fv s a f hin]
    exact ⟨rfl, rfl⟩

/-- The byte a program flag-setter call leaves at the targeted index: the old
byte, the old byte with the flag ORed in, or, when the flag is `Code`, the old
byte with `Data` cleared and the flag ORed in. -/
theorem SetFlagPrg_byteAt_self_cases (a : Int) (f : CdlPrgFlags) :
    (s.SetFlagPrg fv a f).byteAt a.toNat = s.byteAt a.toNat ∨
    (s.SetFlagPrg fv a f).byteAt a.toNat = s.byteAt a.toNat ||| toUInt8 (fv.prg f) ∨
    (fv.prg f = fv.Code ∧
      (s.SetFlagPrg fv a f).byteAt a.toNat
        = clearBits (s.byteAt a.toNat) fv.Data ||| toUInt8 (fv.prg f)) := by
  by_cases hl : a.toNat < s.cdlData.length
  swap
  · left
    have e : ∀ t : CodeDataLogger, t.cdlData.length = s.cdlData.length →
        t.byteAt a.toNat = 0 := by
      intro t ht
      simp only [byteAt]
      exact List.getD_eq_default _ _ (by omega)
    rw [e _ (SetFlagPrg_length fv s a f), e s rfl]
  unfold SetFlagPrg
  dsimp only
  split_ifs
  all_goals first
    | (left; rfl)
    | (right; left; simp [byteAt, setByte, hl]; done)
    | (right; right
       refine ⟨by assumption, ?_⟩
       simp [byteAt, setByte, hl])

/-- The byte a graphics flag-setter call leaves at the targeted index. -/
theorem SetFlagChr_byteAt_self_cases (a : Int) (f : CdlChrFlags) :
    (s.SetFlagChr fv a f).byteAt (s.prgSize + a.toNat) = s.byteAt (s.prgSize + a.toNat) ∨
    (s.SetFlagChr fv a f).byteAt (s.prgSize + a.toNat)
      = s.byteAt (s.prgSize + a.toNat) ||| toUInt8 (fv.chr f) := by
  by_cases hl : s.prgSize + a.toNat < s.cdlData.length
  swap
  · left
    have e : ∀ t : CodeDataLogger, t.cdlData.length = s.cdlData.length →
        t.byteAt (s.prgSize + a.toNat) = 0 := by
      intro t ht
      simp only [byteAt]
      exact List.getD_eq_default _ _ (by omega)
    rw [e _ (SetFlagChr_length fv s a f), e s rfl]
  unfold SetFlagChr
  dsimp only
  split_ifs
  all_goals first
    | (left; rfl)
    | (right; simp [byteAt, setByte, hl])

theorem testBit_or_left {b m i : Nat} (h : b.testBit i = true) :
    (b ||| m).testBit i = true := by
  rw [Nat.testBit_or, h]; rfl

theorem testBit_lt_eight {b i : Nat} (hb : b < 256) (h : b.testBit i = true) : i < 8 := by
  by_contra hi
  have h2 : b < 2 ^ i :=
    Nat.lt_of_lt_of_le hb (Nat.pow_le_pow_right (by decide) (Nat.le_of_not_lt hi) : 2 ^ 8 ≤ 2 ^ i)
  rw [Nat.testBit_lt_two_pow h2] at h
  exact Bool.false_ne_true h

theorem testBit_clearBits {b d i : Nat} (hb : b < 256) (h : b.testBit i = true)
    (hd : d.testBit i = false) : (clearBits b d).testBit i = true := by
  have hi := testBit_lt_eight hb h
  have h255 : (255 : Nat).testBit i = true := by
    have := Nat.testBit_two_pow_sub_one 8 i
    simpa [hi] using this
  unfold clearBits toUInt8
  rw [Nat.testBit_and, Nat.testBit_xor, h, h255,
    show (256 : Nat) = 2 ^ 8 from rfl, Nat.testBit_mod_two_pow, hd]
  simp

theorem byteAt_lt (hb : s.BytesInRange) (j : Nat) : s.byteAt j < 256 := by
  unfold byteAt
  by_cases h : j < s.cdlData.length
  · rw [List.getD_eq_getElem _ _ h]
    exact hb _ (List.getElem_mem h)
  · rw [List.getD_eq_default _ _ (Nat.le_of_not_lt h)]
    decide

theorem hasFlag_or_mono {m b : Nat} (x : Nat) (h : hasFlag m b = true) :
    hasFlag m (b ||| x) = true := by
  rw [hasFlag_eq_true_iff] at h ⊢
  apply Nat.eq_of_testBit_eq
  intro i
  have hi : (b &&& toUInt8 m).testBit i = (toUInt8 m).testBit i := by rw [h]
  rw [Nat.testBit_and] at hi
  rw [Nat.testBit_and, Nat.testBit_or]
  revert hi
  cases b.testBit i <;> cases (toUInt8 m).testBit i <;> cases x.testBit i <;> simp

end Frame

section HugeSizes

variable (fv : CdlFlagValues)

theorem toInt32_two_pow_31 : toInt32 (2 ^ 31) = -2 ^ 31 := by
  unfold toInt32
  norm_num

/-- On a logger of program size `2^31` the range check of the program flag-setter
rejects every address. -/
theorem SetFlagPrg_of_size_two_pow_31 (s : CodeDataLogger) (h : s.prgSize = 2 ^ 31) (a : Int)
    (f : CdlPrgFlags) : s.SetFlagPrg fv a f = s := by
  apply SetFlagPrg_of_not_inRange
  rw [h, toInt32_two_pow_31]
  omega

theorem hugeLogger_prgSize : hugeLogger.prgSize = 2 ^ 31 := rfl

theorem hugeLogger_byteAt (i : Nat) : hugeLogger.byteAt i = 0 :=
  Reset_byteAt _ i

theorem hugeLogger_eq_Reset : hugeLogger = Reset hugeLogger := rfl

theorem hugeDataLogger_wellFormed : (hugeDataLogger fv).WellFormed := by
  show (fv.Data :: List.replicate (2 ^ 31 - 1) 0).length = 2 ^ 31 + 0
  rw [List.length_cons, List.length_replicate]
  norm_num

end HugeSizes

end CodeDataLogger

/-! ## The loops of `GenerateCodeOutput` -/

namespace Debugger

section Loops

variable (resolve : Nat → AddressTypeInfo)

theorem wrapInt32_of_fit {x : Int} (h1 : -2 ^ 31 ≤ x) (h2 : x < 2 ^ 31) : wrapInt32 x = x := by
  unfold wrapInt32
  omega

theorem mergeLoop_succ (fuel : Nat) (currentInfo endInfo : AddressTypeInfo) (endAddr : Int)
    (i : Nat) :
    mergeLoop resolve (fuel + 1) currentInfo endInfo endAddr i =
      if currentInfo.type = endInfo.type ∧
          wrapInt32 (currentInfo.Address + 0x100) = endInfo.Address ∧ i < 0x10000 then
        mergeLoop resolve fuel endInfo (resolve (i + 0x100 + 0x100))
          (wrapInt32 (endAddr + 0x100)) (i + 0x100)
      else some (endAddr, i) := rfl

/-- The `while` loop, entered with enough fuel, is left, whatever the resolver
answers. -/
theorem mergeLoop_total : ∀ (fuel : Nat) (currentInfo endInfo : AddressTypeInfo)
    (endAddr : Int) (i : Nat), 1 ≤ fuel → 0x10100 ≤ i + 0x100 * fuel →
    ∃ e i1, mergeLoop resolve fuel currentInfo endInfo endAddr i = some (e, i1) ∧ i ≤ i1 := by
  intro fuel
  induction fuel with
  | zero => intro _ _ _ i h; omega
  | succ f ih =>
    intro currentInfo endInfo endAddr i _ hf
    rw [mergeLoop_succ]
    by_cases hc : currentInfo.type = endInfo.type ∧
        wrapInt32 (currentInfo.Address + 0x100) = endInfo.Address ∧ i < 0x10000
    · rw [if_pos hc]
      obtain ⟨e, i1, h, hle⟩ := ih endInfo (resolve (i + 0x100 + 0x100))
        (wrapInt32 (endAddr + 0x100)) (i + 0x100) (by omega) (by omega)
      exact ⟨e, i1, h, by omega⟩
    · rw [if_neg hc]
      exact ⟨endAddr, i, rfl, Nat.le_refl _⟩

theorem codeLoop_succ (fuel i : Nat) :
    codeLoop resolve (fuel + 1) i =
      if i < 0x10000 then
        if (resolve i).Address ≥ 0 then
          match mergeLoop resolve 257 (resolve i) (resolve (i + 0x100))
              (wrapInt32 ((resolve i).Address + 0xFF)) i with
          | none => none
          | some (endAddr, i1) =>
            (codeLoop resolve fuel (i1 + 0x100)).map
              (fun rest => { startInfo := resolve i, endAddr := endAddr,
                             startMemoryAddr := i } :: rest)
        else codeLoop resolve fuel (i + 0x100)
      else some [] := rfl

/-- The `for` loop, entered with enough fuel, returns a list of requests, whatever
the resolver answers. -/
theorem codeLoop_total : ∀ (fuel i : Nat), 0x10000 ≤ i + 0x100 * fuel →
    ∃ reqs, codeLoop resolve fuel i = some reqs := by
  intro fuel
  induction fuel with
  | zero =>
    intro i hf
    refine ⟨[], ?_⟩
    simp only [codeLoop]
    rw [if_neg (by omega)]
  | succ f ih =>
    intro i hf
    rw [codeLoop_succ]
    by_cases hi : i < 0x10000
    swap
    · rw [if_neg hi]; exact ⟨[], rfl⟩
    rw [if_pos hi]
    by_cases ha : (resolve i).Address ≥ 0
    swap
    · rw [if_neg ha]
      exact ih (i + 0x100) (by omega)
    rw [if_pos ha]
    obtain ⟨e, i1, hm, hle⟩ := mergeLoop_total resolve 257 (resolve i) (resolve (i + 0x100))
      (wrapInt32 ((resolve i).Address + 0xFF)) i (by omega) (by omega)
    rw [hm]
    obtain ⟨rest, hrest⟩ := ih (i1 + 0x100) (by omega)
    dsimp only
    rw [hrest]
    exact ⟨_, rfl⟩

/-- One pass of `GenerateCodeOutput` terminates with a list of requests, whatever
the resolver answers. -/
theorem codeRequests_total : ∃ reqs, codeRequests resolve = some reqs :=
  codeLoop_total resolve 256 0 (by omega)

theorem mergeLoop_cond_iff (hfit : AddressesFit resolve) (i : Nat) :
    ((resolve i).type = (resolve (i + 0x100)).type ∧
      wrapInt32 ((resolve i).Address + 0x100) = (resolve (i + 0x100)).Address ∧ i < 0x10000) ↔
    (Contiguous resolve i ∧ i < 0x10000) := by
  unfold Contiguous
  by_cases hi : i < 0x10000
  · have := hfit i (by omega)
    rw [wrapInt32_of_fit (by omega) this.2]
    constructor
    · rintro ⟨h1, h2, h3⟩; exact ⟨⟨h1.symm, h2.symm⟩, h3⟩
    · rintro ⟨⟨h1, h2⟩, h3⟩; exact ⟨h1.symm, h2.symm, h3⟩
  · constructor
    · rintro ⟨_, _, h3⟩; exact absurd h3 hi
    · rintro ⟨_, h3⟩; exact absurd h3 hi

/-- Without overflow, the `while` loop, entered at block `i` with enough fuel,
leaves after merging `k` blocks: every merged block continues its predecessor and
lies below the top, and the loop condition fails at the block it stops on. -/
theorem mergeLoop_spec (hfit : AddressesFit resolve) : ∀ (fuel i : Nat), 1 ≤ fuel →
    0x10100 ≤ i + 0x100 * fuel →
    ∃ k : Nat,
      mergeLoop resolve fuel (resolve i) (resolve (i + 0x100)) ((resolve i).Address + 0xFF) i
        = some ((resolve i).Address + 0xFF + 0x100 * (k : Int), i + 0x100 * k) ∧
      (∀ j, j < k → Contiguous resolve (i + 0x100 * j) ∧ i + 0x100 * j < 0x10000) ∧
      ¬ (Contiguous resolve (i + 0x100 * k) ∧ i + 0x100 * k < 0x10000) := by
  intro fuel
  induction fuel with
  | zero => intro i h; omega
  | succ f ih =>
    intro i _ hf
    rw [mergeLoop_succ]
    by_cases hc : Contiguous resolve i ∧ i < 0x10000
    · rw [if_pos ((mergeLoop_cond_iff resolve hfit i).2 hc)]
      have hnext : (resolve (i + 0x100)).Address = (resolve i).Address + 0x100 := hc.1.2
      have hwrap : wrapInt32 ((resolve i).Address + 0xFF + 0x100)
          = (resolve (i + 0x100)).Address + 0xFF := by
        have := hfit (i + 0x100) (by omega)
        rw [wrapInt32_of_fit (by omega) (by omega)]
        omega
      rw [hwrap]
      obtain ⟨k, hk, hall, hstop⟩ := ih (i + 0x100) (by omega) (by omega)
      refine ⟨k + 1, ?_, ?_, ?_⟩
      · rw [hk, hnext]
        congr 2
        · push_cast; ring
        · ring
      · intro j hj
        cases j with
        | zero => simpa using hc
        | succ j =>
          have := hall j (by omega)
          have e : i + 0x100 * (j + 1) = i + 0x100 + 0x100 * j := by ring
          rw [e]; exact this
      · have e : i + 0x100 * (k + 1) = i + 0x100 + 0x100 * k := by ring
        rw [e]; exact hstop
    · rw [if_neg (fun h => hc ((mergeLoop_cond_iff resolve hfit i).1 h))]
      refine ⟨0, by simp, ?_, by simpa using hc⟩
      intro j hj; omega

theorem wrapInt32_start (hfit : AddressesFit resolve) (i : Nat) (hi : i ≤ 0x10100) :
    wrapInt32 ((resolve i).Address + 0xFF) = (resolve i).Address + 0xFF := by
  have := hfit i hi
  exact wrapInt32_of_fit (by omega) (by omega)

theorem mergedUpTo_eq (hfit : AddressesFit resolve) {i i1 : Nat} {e : Int} (hi : i ≤ 0x10100)
    (h : mergeLoop resolve 257 (resolve i) (resolve (i + 0x100)) ((resolve i).Address + 0xFF) i
      = some (e, i1)) :
    mergedUpTo resolve i = some i1 := by
  unfold mergedUpTo
  rw [wrapInt32_start resolve hfit i hi, h]
  rfl

/-- Without overflow, the `for` loop, entered at an aligned `i` with enough fuel,
returns a list of requests; each of them is a maximal run that starts at or after
`i`. -/
theorem codeLoop_spec (hfit : AddressesFit resolve) :
    ∀ (fuel i : Nat), 0x10000 ≤ i + 0x100 * fuel → i % 0x100 = 0 →
    ∃ reqs, codeLoop resolve fuel i = some reqs ∧
      ∀ r ∈ reqs, IsRun resolve r ∧ i ≤ r.startMemoryAddr := by
  intro fuel
  induction fuel with
  | zero =>
    intro i hf _
    refine ⟨[], ?_, by simp⟩
    simp only [codeLoop]
    rw [if_neg (by omega)]
  | succ f ih =>
    intro i hf hal
    rw [codeLoop_succ]
    by_cases hi : i < 0x10000
    swap
    · rw [if_neg hi]; exact ⟨[], rfl, by simp⟩
    rw [if_pos hi]
    by_cases ha : (resolve i).Address ≥ 0
    swap
    · rw [if_neg ha]
      obtain ⟨reqs, hr, hall⟩ := ih (i + 0x100) (by omega) (by omega)
      refine ⟨reqs, hr, fun r hr => ⟨(hall r hr).1, ?_⟩⟩
      have := (hall r hr).2
      omega
    rw [if_pos ha, wrapInt32_start resolve hfit i (by omega)]
    obtain ⟨k, hk, hall, hstop⟩ := mergeLoop_spec resolve hfit 257 i (by omega) (by omega)
    rw [hk]
    obtain ⟨rest, hrest, hrall⟩ := ih (i + 0x100 * k + 0x100) (by omega) (by omega)
    dsimp only
    rw [hrest]
    refine ⟨_, rfl, ?_⟩
    intro r hr
    rcases List.mem_cons.1 hr with rfl | hr
    · have hi2 : i ≤ 0x10100 := Nat.le_of_lt (Nat.lt_of_lt_of_le hi (by omega))
      exact ⟨⟨rfl, hal, hi, ha, k, rfl, mergedUpTo_eq resolve hfit hi2 hk, hall, hstop⟩,
        Nat.le_refl _⟩
    · refine ⟨(hrall r hr).1, ?_⟩
      have := (hrall r hr).2
      omega

/-- Without overflow, every request of one pass of `GenerateCodeOutput` is a
maximal run. -/
theorem codeRequests_spec (hfit : AddressesFit resolve) :
    ∃ reqs, codeRequests resolve = some reqs ∧ ∀ r ∈ reqs, IsRun resolve r := by
  obtain ⟨reqs, h, hall⟩ := codeLoop_spec resolve hfit 256 0 (by omega) (by omega)
  exact ⟨reqs, h, fun r hr => (hall r hr).1⟩

/-- Within a maximal run, an aligned block below the last block of the address
space that the run covers is followed in the same run exactly when the next block
continues it. -/
theorem IsRun.covers_next {r : CodeRequest} (hr : IsRun resolve r) (b : Nat)
    (hb : b % 0x100 = 0) (htop : b + 0x100 < 0x10000) (hcov : r.Covers b) :
    r.Covers (b + 0x100) ↔ Contiguous resolve b := by
  obtain ⟨_, hal, _, _, k, he, _, hall, hstop⟩ := hr
  unfold CodeRequest.Covers at hcov ⊢
  rw [he] at hcov ⊢
  obtain ⟨hs, hle⟩ := hcov
  obtain ⟨j, hj⟩ : ∃ j, b = r.startMemoryAddr + 0x100 * j :=
    ⟨(b - r.startMemoryAddr) / 0x100, by omega⟩
  by_cases hjk : j < k
  · have h1 := (hall j hjk).1
    rw [← hj] at h1
    constructor
    · intro _; exact h1
    · intro _
      constructor
      · omega
      · push_cast
        omega
  · have hjk2 : j = k := by omega
    rw [← hjk2, ← hj] at hstop
    constructor
    · intro h
      push_cast at h
      omega
    · intro h
      exact absurd ⟨h, by omega⟩ hstop

/-- The blocks that the physical range of a maximal run covers are the blocks the
`while` loop merged into it: those from its start up to the block at which the
loop was left. -/
theorem IsRun.covers_iff_merged {r : CodeRequest} (hr : IsRun resolve r) :
    ∃ last, mergedUpTo resolve r.startMemoryAddr = some last ∧
      ∀ b, r.Covers b ↔ r.startMemoryAddr ≤ b ∧ b ≤ last := by
  obtain ⟨_, _, _, _, k, he, hm, _, _⟩ := hr
  refine ⟨_, hm, fun b => ?_⟩
  unfold CodeRequest.Covers
  rw [he]
  constructor
  · rintro ⟨h1, h2⟩
    exact ⟨h1, by omega⟩
  · rintro ⟨h1, h2⟩
    exact ⟨h1, by omega⟩

/-- Two physically contiguous blocks at the bottom of the address space, not
continued by the third block, are requested as one run. -/
theorem codeRequests_merged (hfit : AddressesFit resolve) (h0 : (resolve 0).Address = 0)
    (hc0 : Contiguous resolve 0) (hc1 : ¬ Contiguous resolve 0x100) :
    ∃ rest, codeRequests resolve
        = some ({ startInfo := resolve 0, endAddr := 0x1FF, startMemoryAddr := 0 } :: rest) ∧
      ∀ r ∈ rest, 0x200 ≤ r.startMemoryAddr := by
  obtain ⟨rest, hrest, hall⟩ := codeLoop_spec resolve hfit 255 0x200 (by omega) (by omega)
  refine ⟨rest, ?_, fun r hr => (hall r hr).2⟩
  have hm : mergeLoop resolve 257 (resolve 0) (resolve (0 + 0x100))
      (wrapInt32 ((resolve 0).Address + 0xFF)) 0 = some (0x1FF, 0x100) := by
    rw [show (257 : Nat) = 255 + 1 + 1 from rfl, mergeLoop_succ,
      if_pos ((mergeLoop_cond_iff resolve hfit 0).2 ⟨hc0, by omega⟩), mergeLoop_succ,
      if_neg (fun h => hc1 ((mergeLoop_cond_iff resolve hfit (0 + 0x100)).1 h).1), h0]
    rfl
  unfold codeRequests
  rw [show (256 : Nat) = 255 + 1 from rfl, codeLoop_succ, if_pos (by omega),
    if_pos (by omega), hm]
  dsimp only
  rw [hrest]
  rfl

/-- A second block that does not continue the first one is requested separately. -/
theorem codeRequests_split (hfit : AddressesFit resolve) (h0 : (resolve 0).Address = 0)
    (h1 : 0 ≤ (resolve 0x100).Address) (hc0 : ¬ Contiguous resolve 0) :
    ∃ r1 rest, codeRequests resolve
        = some ({ startInfo := resolve 0, endAddr := 0xFF, startMemoryAddr := 0 } :: r1 :: rest) ∧
      r1.startInfo = resolve 0x100 ∧ r1.startMemoryAddr = 0x100 ∧
      ∀ r ∈ rest, 0x200 ≤ r.startMemoryAddr := by
  obtain ⟨k, hk, _, _⟩ := mergeLoop_spec resolve hfit 257 0x100 (by omega) (by omega)
  obtain ⟨rest, hrest, hall⟩ :=
    codeLoop_spec resolve hfit 254 (0x100 + 0x100 * k + 0x100) (by omega) (by omega)
  refine ⟨{ startInfo := resolve 0x100,
            endAddr := (resolve 0x100).Address + 0xFF + 0x100 * (k : Int),
            startMemoryAddr := 0x100 }, rest, ?_, rfl, rfl, fun r hr => ?_⟩
  · have hm : mergeLoop resolve 257 (resolve 0) (resolve (0 + 0x100))
        (wrapInt32 ((resolve 0).Address + 0xFF)) 0 = some (0xFF, 0) := by
      rw [show (257 : Nat) = 256 + 1 from rfl, mergeLoop_succ,
        if_neg (fun h => hc0 ((mergeLoop_cond_iff resolve hfit 0).1 h).1), h0]
      rfl
    unfold codeRequests
    rw [show (256 : Nat) = 254 + 1 + 1 from rfl, codeLoop_succ, if_pos (by omega),
      if_pos (by omega), hm]
    dsimp only
    rw [codeLoop_succ, if_pos (by omega), if_pos (by simpa using h1)]
    have hk1 : mergeLoop resolve 257 (resolve (0 + 0x100)) (resolve (0 + 0x100 + 0x100))
        (wrapInt32 ((resolve (0 + 0x100)).Address + 0xFF)) (0 + 0x100)
        = some ((resolve 0x100).Address + 0xFF + 0x100 * (k : Int), 0x100 + 0x100 * k) := by
      rw [wrapInt32_start resolve hfit _ (by omega)]
      exact hk
    rw [hk1]
    dsimp only
    rw [hrest]
    rfl
  · have := (hall r hr).2
    omega

/-- Along a run the physical address advances by 0x100 per block. -/
theorem address_chain (s k : Nat)
    (hall : ∀ j, j < k → Contiguous resolve (s + 0x100 * j) ∧ s + 0x100 * j < 0x10000) :
    ∀ j, j ≤ k → (resolve (s + 0x100 * j)).Address = (resolve s).Address + 0x100 * (j : Int) := by
  intro j
  induction j with
  | zero => intro _; simp
  | succ j ih =>
    intro hj
    have h1 := (hall j (by omega)).1.2
    have e : s + 0x100 * (j + 1) = s + 0x100 * j + 0x100 := by ring
    rw [e, h1, ih (by omega)]
    push_cast
    ring

/-- The aligned blocks a maximal run covers are its start block and the blocks
merged into it; `k` is their number, and the `while` loop was left at the last of
them. -/
theorem IsRun.exists_blocks {r : CodeRequest} (hr : IsRun resolve r) :
    ∃ k : Nat, 1 ≤ k ∧ r.endAddr = r.startInfo.Address + 0x100 * (k : Int) - 1 ∧
      mergedUpTo resolve r.startMemoryAddr = some (r.startMemoryAddr + 0x100 * (k - 1)) ∧
      (∀ b, b % 0x100 = 0 →
        (r.Covers b ↔ r.startMemoryAddr ≤ b ∧ b < r.startMemoryAddr + 0x100 * k)) ∧
      (∀ b, b % 0x100 = 0 → r.Covers b → 0 ≤ (resolve b).Address) := by
  obtain ⟨hs, hal, _, hp, k, he, hm, hall, _⟩ := hr
  refine ⟨k + 1, by omega, by rw [he]; push_cast; ring, by simpa using hm, ?_, ?_⟩
  · intro b hb
    unfold CodeRequest.Covers
    rw [he]
    constructor
    · rintro ⟨h1, h2⟩
      exact ⟨h1, by omega⟩
    · rintro ⟨h1, h2⟩
      exact ⟨h1, by omega⟩
  · intro b hb hcov
    unfold CodeRequest.Covers at hcov
    rw [he] at hcov
    obtain ⟨h1, h2⟩ := hcov
    obtain ⟨j, hj⟩ : ∃ j, b = r.startMemoryAddr + 0x100 * j :=
      ⟨(b - r.startMemoryAddr) / 0x100, by omega⟩
    have hjk : j ≤ k := by omega
    rw [hj, address_chain resolve r.startMemoryAddr k hall j hjk, ← hs]
    have : (0 : Int) ≤ 0x100 * (j : Int) := by positivity
    omega

/-- Without overflow, the `for` loop, entered at an aligned `i` with enough fuel:
its requests start at or after `i` in strictly increasing order, no block is
covered by two of them, and every mapped aligned block from `i` up to the top is
covered by one. -/
theorem codeLoop_partition (hfit : AddressesFit resolve) :
    ∀ (fuel i : Nat), 0x10000 ≤ i + 0x100 * fuel → i % 0x100 = 0 →
    ∃ reqs, codeLoop resolve fuel i = some reqs ∧
      (∀ r ∈ reqs, i ≤ r.startMemoryAddr) ∧
      reqs.Pairwise (fun r1 r2 => r1.startMemoryAddr < r2.startMemoryAddr) ∧
      (∀ b r1 r2, r1 ∈ reqs → r2 ∈ reqs → r1.Covers b → r2.Covers b → r1 = r2) ∧
      (∀ b, b % 0x100 = 0 → i ≤ b → b < 0x10000 → 0 ≤ (resolve b).Address →
        ∃ r ∈ reqs, r.Covers b) := by
  intro fuel
  induction fuel with
  | zero =>
    intro i hf _
    refine ⟨[], ?_, by simp, List.Pairwise.nil, by simp, ?_⟩
    · simp only [codeLoop]
      rw [if_neg (by omega)]
    · intro b _ h1 h2 _
      omega
  | succ f ih =>
    intro i hf hal
    rw [codeLoop_succ]
    by_cases hi : i < 0x10000
    swap
    · rw [if_neg hi]
      refine ⟨[], rfl, by simp, List.Pairwise.nil, by simp, ?_⟩
      intro b _ h1 h2 _
      omega
    rw [if_pos hi]
    by_cases ha : (resolve i).Address ≥ 0
    swap
    · rw [if_neg ha]
      obtain ⟨reqs, hr, hge, hpw, huniq, hcov⟩ := ih (i + 0x100) (by omega) (by omega)
      refine ⟨reqs, hr, ?_, hpw, huniq, ?_⟩
      · intro r hr
        have := hge r hr
        omega
      · intro b hb h1 h2 hmap
        have hne : b ≠ i := by
          intro e
          rw [e] at hmap
          exact ha hmap
        exact hcov b hb (by omega) h2 hmap
    rw [if_pos ha, wrapInt32_start resolve hfit i (by omega)]
    obtain ⟨k, hk, _, _⟩ := mergeLoop_spec resolve hfit 257 i (by omega) (by omega)
    rw [hk]
    obtain ⟨rest, hrest, hge, hpw, huniq, hcov⟩ :=
      ih (i + 0x100 * k + 0x100) (by omega) (by omega)
    dsimp only
    rw [hrest]
    have hfirst : ∀ b, CodeRequest.Covers
        { startInfo := resolve i, endAddr := (resolve i).Address + 0xFF + 0x100 * (k : Int),
          startMemoryAddr := i } b ↔ i ≤ b ∧ b ≤ i + 0x100 * k := by
      intro b
      unfold CodeRequest.Covers
      dsimp only
      constructor
      · rintro ⟨h1, h2⟩
        exact ⟨h1, by omega⟩
      · rintro ⟨h1, h2⟩
        exact ⟨h1, by omega⟩
    have hlater : ∀ r ∈ rest, ∀ b, r.Covers b → i + 0x100 * k + 0x100 ≤ b := by
      intro r hr b hc
      have := hge r hr
      have := hc.1
      omega
    refine ⟨_, rfl, ?_, ?_, ?_, ?_⟩
    · intro r hr
      rcases List.mem_cons.1 hr with rfl | hr
      · exact Nat.le_refl _
      · have := hge r hr
        omega
    · rw [List.pairwise_cons]
      refine ⟨?_, hpw⟩
      intro r hr
      have := hge r hr
      show i < r.startMemoryAddr
      omega
    · intro b r1 r2 h1 h2 c1 c2
      rcases List.mem_cons.1 h1 with rfl | h1
      · rcases List.mem_cons.1 h2 with rfl | h2
        · rfl
        · have := ((hfirst b).1 c1).2
          have := hlater r2 h2 b c2
          omega
      · rcases List.mem_cons.1 h2 with rfl | h2
        · have := ((hfirst b).1 c2).2
          have := hlater r1 h1 b c1
          omega
        · exact huniq b r1 r2 h1 h2 c1 c2
    · intro b hb h1 h2 hmap
      by_cases hbk : b ≤ i + 0x100 * k
      · exact ⟨_, List.mem_cons_self _ _, (hfirst b).2 ⟨h1, hbk⟩⟩
      · obtain ⟨r, hr, hc⟩ := hcov b hb (by omega) h2 hmap
        exact ⟨r, List.mem_cons_of_mem _ hr, hc⟩

/-- Every physical address `wrapResolve` returns is an `int32_t` value. -/
theorem wrapResolve_int32 (i : Nat) :
    -2 ^ 31 ≤ (wrapResolve i).Address ∧ (wrapResolve i).Address < 2 ^ 31 := by
  unfold wrapResolve
  split
  · dsimp only
    omega
  · split
    · dsimp only
      omega
    · dsimp only
      omega

theorem sampleResolve_fit : AddressesFit sampleResolve := by
  intro i hi
  unfold sampleResolve
  split
  · dsimp only
    omega
  · dsimp only
    omega

theorem sampleResolveSplit_fit : AddressesFit sampleResolveSplit := by
  intro i hi
  unfold sampleResolveSplit
  split
  · dsimp only
    omega
  · split
    · dsimp only
      omega
    · dsimp only
      omega

end Loops

end Debugger

/-! ## Theorems about the flag-setters -/

section FlagSetters

open CodeDataLogger

/-- C6. Idempotence of the flag-setters: on every logger whose map has the
allocated length, for every address and every named flag, calling
`SetFlag(a, f)` twice in a row leaves exactly the same state (map and five
counters) as calling it once; this holds for the program and for the graphics
flag-setter, whatever the numeric values of the flags. -/
theorem setFlag_idempotent (fv : CdlFlagValues) (s : CodeDataLogger) (hwf : s.WellFormed)
    (a : Int) :
    (∀ f : CdlPrgFlags, (s.SetFlagPrg fv a f).SetFlagPrg fv a f = s.SetFlagPrg fv a f) ∧
    (∀ f : CdlChrFlags, (s.SetFlagChr fv a f).SetFlagChr fv a f = s.SetFlagChr fv a f) := by
  constructor
  · intro f
    by_cases hin : a ≥ 0 ∧ a < toInt32 s.prgSize
    · rcases SetFlagPrg_eq_or_has fv s a f hwf hin.1 hin.2 with h | h
      · rw [h, h]
      · exact SetFlagPrg_of_has fv _ a f h
    · rw [SetFlagPrg_of_not_inRange fv s a f hin, SetFlagPrg_of_not_inRange fv s a f hin]
  · intro f
    by_cases hin : a ≥ 0 ∧ a < toInt32 s.chrSize
    · have h := SetFlagChr_has fv s a f hwf hin.1 hin.2
      apply SetFlagChr_of_has
      rw [SetFlagChr_prgSize]
      exact h
    · rw [SetFlagChr_of_not_inRange fv s a f hin, SetFlagChr_of_not_inRange fv s a f hin]

/-- Witness for C6 on a two-byte program region and a one-byte graphics region. -/
theorem setFlag_idempotent_witness :
    ((create 2 1).SetFlagPrg sampleFlags 1 .Code).SetFlagPrg sampleFlags 1 .Code
        = (create 2 1).SetFlagPrg sampleFlags 1 .Code ∧
    ((create 2 1).SetFlagChr sampleFlags 0 .Read).SetFlagChr sampleFlags 0 .Read
        = (create 2 1).SetFlagChr sampleFlags 0 .Read :=
  ⟨(setFlag_idempotent sampleFlags (create 2 1) (by decide) 1).1 .Code,
   (setFlag_idempotent sampleFlags (create 2 1) (by decide) 0).2 .Read⟩

/-- C7. Out-of-range addresses are ignored: for every logger and every flag,
`SetFlag(a, f)` on the program region with `a < 0` or `a ≥ prgSize`, and on the
graphics region with `a < 0` or `a ≥ chrSize`, returns the state it was given,
so every byte of the map and all five counters are unchanged; the flag-setters
are total functions without an error result. -/
theorem setFlag_out_of_range_ignored (fv : CdlFlagValues) (s : CodeDataLogger) (a : Int) :
    (∀ f : CdlPrgFlags, a < 0 ∨ a ≥ (s.prgSize : Int) → s.SetFlagPrg fv a f = s) ∧
    (∀ f : CdlChrFlags, a < 0 ∨ a ≥ (s.chrSize : Int) → s.SetFlagChr fv a f = s) := by
  constructor
  · intro f h
    apply SetFlagPrg_of_not_inRange
    have := toInt32_le s.prgSize
    omega
  · intro f h
    apply SetFlagChr_of_not_inRange
    have := toInt32_le s.chrSize
    omega

/-- Witness for C7: address 2 is past a two-byte program region and address -1 is
below the graphics region. -/
theorem setFlag_out_of_range_ignored_witness :
    (create 2 1).SetFlagPrg sampleFlags 2 .Data = create 2 1 ∧
    (create 2 1).SetFlagChr sampleFlags (-1) .Drawn = create 2 1 :=
  ⟨(setFlag_out_of_range_ignored sampleFlags (create 2 1) 2).1 .Data (Or.inr (by decide)),
   (setFlag_out_of_range_ignored sampleFlags (create 2 1) (-1)).2 .Drawn (Or.inl (by decide))⟩

/-- C3, amended. Code always wins when the program size is below `2^31`: in
every state `s` reached from `Reset` by flag-setter calls with `prgSize < 2^31`
and for every address `a` with `0 ≤ a < prgSize`, after `SetFlag(a, Data)`
followed by `SetFlag(a, Code)` `IsCode(a)` is true and `IsData(a)` is false; after
the reverse order `SetFlag(a, Code)`, `SetFlag(a, Data)` likewise; and repeating
either pair `n ≥ 1` times gives the same state as doing it once. -/
theorem code_always_wins (fv : CdlFlagValues) (hfv : fv.Disjoint) (s0 : CodeDataLogger)
    (calls : List CdlCall) (s : CodeDataLogger) (hs : s = runCalls fv (Reset s0) calls)
    (a : Int) (h0 : 0 ≤ a) (h1 : a < (s.prgSize : Int)) (hsz : s.prgSize < 2 ^ 31)
    (n : Nat) (hn : 0 < n) :
    (((setDataThenCode fv a)^[n] s).IsCode fv a.toNat = true ∧
      ((setDataThenCode fv a)^[n] s).IsData fv a.toNat = false ∧
      (setDataThenCode fv a)^[n] s = setDataThenCode fv a s) ∧
    (((setCodeThenData fv a)^[n] s).IsCode fv a.toNat = true ∧
      ((setCodeThenData fv a)^[n] s).IsData fv a.toNat = false ∧
      (setCodeThenData fv a)^[n] s = setCodeThenData fv a s) := by
  obtain ⟨hwf, hex⟩ := reachable_exclusive fv hfv s0 calls
  rw [← hs] at hwf hex
  have h1t : a < toInt32 s.prgSize := by rw [toInt32_of_lt hsz]; exact h1
  have hlt : a.toNat < s.prgSize := by omega
  obtain ⟨m, rfl⟩ : ∃ m, n = m + 1 := ⟨n - 1, by omega⟩
  obtain ⟨dc1, dc2⟩ := setDataThenCode_spec fv s hfv hwf a h0 h1t (hex _ hlt)
  obtain ⟨cd1, cd2⟩ := setCodeThenData_spec fv s hfv hwf a h0 h1t (hex _ hlt)
  have e1 : (setDataThenCode fv a)^[m + 1] s = setDataThenCode fv a s := by
    rw [Function.iterate_succ_apply]
    exact Function.iterate_fixed (setDataThenCode_fixed fv _ hfv a dc1) m
  have e2 : (setCodeThenData fv a)^[m + 1] s = setCodeThenData fv a s := by
    rw [Function.iterate_succ_apply]
    exact Function.iterate_fixed (setCodeThenData_fixed fv _ hfv a cd1) m
  rw [e1, e2]
  exact ⟨⟨dc1, dc2, rfl⟩, ⟨cd1, cd2, rfl⟩⟩

/-- Witness for C3: byte 1 of a two-byte program region that was first marked as
data, with each pair of calls repeated three times. -/
theorem code_always_wins_witness :
    (((setDataThenCode sampleFlags 1)^[3] (runCalls sampleFlags (Reset (create 2 1))
          [.prg 1 .Data])).IsCode sampleFlags 1 = true ∧
      ((setDataThenCode sampleFlags 1)^[3] (runCalls sampleFlags (Reset (create 2 1))
          [.prg 1 .Data])).IsData sampleFlags 1 = false ∧
      (setDataThenCode sampleFlags 1)^[3] (runCalls sampleFlags (Reset (create 2 1))
          [.prg 1 .Data]) =
        setDataThenCode sampleFlags 1 (runCalls sampleFlags (Reset (create 2 1))
          [.prg 1 .Data])) ∧
    (((setCodeThenData sampleFlags 1)^[3] (runCalls sampleFlags (Reset (create 2 1))
          [.prg 1 .Data])).IsCode sampleFlags 1 = true ∧
      ((setCodeThenData sampleFlags 1)^[3] (runCalls sampleFlags (Reset (create 2 1))
          [.prg 1 .Data])).IsData sampleFlags 1 = false ∧
      (setCodeThenData sampleFlags 1)^[3] (runCalls sampleFlags (Reset (create 2 1))
          [.prg 1 .Data]) =
        setCodeThenData sampleFlags 1 (runCalls sampleFlags (Reset (create 2 1))
          [.prg 1 .Data])) :=
  code_always_wins sampleFlags (by decide) (create 2 1) [.prg 1 .Data] _ rfl 1
    (by decide) (by decide) (by decide) 3 (by decide)

/-- C1 (the code departs from the claim). On a freshly reset logger with one
graphics byte, `SetFlag(0, Read)` followed by `SetFlag(0, Drawn)` leaves the
incrementally maintained counters `usedChrSize = 2`, `drawnChrSize = 1`,
`readChrSize = 1`, whereas `CalculateStats` run on that state yields
`usedChrSize = 1`, `drawnChrSize = 1`, `readChrSize = 0`: recomputation does not
reproduce the incremental counters.  This holds for all disjoint flag values. -/
theorem recompute_differs_from_incremental (fv : CdlFlagValues) (hfv : fv.Disjoint) :
    ((runCalls fv (Reset (create 0 1)) [.chr 0 .Read, .chr 0 .Drawn]).usedChrSize = 2 ∧
     (runCalls fv (Reset (create 0 1)) [.chr 0 .Read, .chr 0 .Drawn]).drawnChrSize = 1 ∧
     (runCalls fv (Reset (create 0 1)) [.chr 0 .Read, .chr 0 .Drawn]).readChrSize = 1) ∧
    ((CalculateStats fv
        (runCalls fv (Reset (create 0 1)) [.chr 0 .Read, .chr 0 .Drawn])).usedChrSize = 1 ∧
     (CalculateStats fv
        (runCalls fv (Reset (create 0 1)) [.chr 0 .Read, .chr 0 .Drawn])).drawnChrSize = 1 ∧
     (CalculateStats fv
        (runCalls fv (Reset (create 0 1)) [.chr 0 .Read, .chr 0 .Drawn])).readChrSize = 0) := by
  rw [run_read_drawn fv hfv,
    CalculateStats_one_drawn fv hfv (fv.Read ||| fv.Drawn) (or_and_self _ _) _ rfl rfl rfl]
  exact ⟨⟨rfl, rfl, rfl⟩, rfl, rfl, rfl⟩

/-- Evaluation of C1's failing input with the flag values `Drawn = 1`, `Read = 2`. -/
theorem recompute_differs_from_incremental_witness :
    ((runCalls sampleFlags (Reset (create 0 1)) [.chr 0 .Read, .chr 0 .Drawn]).usedChrSize = 2 ∧
     (runCalls sampleFlags (Reset (create 0 1)) [.chr 0 .Read, .chr 0 .Drawn]).drawnChrSize = 1 ∧
     (runCalls sampleFlags (Reset (create 0 1)) [.chr 0 .Read, .chr 0 .Drawn]).readChrSize = 1) ∧
    ((CalculateStats sampleFlags
        (runCalls sampleFlags (Reset (create 0 1)) [.chr 0 .Read, .chr 0 .Drawn])).usedChrSize = 1 ∧
     (CalculateStats sampleFlags
        (runCalls sampleFlags (Reset (create 0 1)) [.chr 0 .Read, .chr 0 .Drawn])).drawnChrSize = 1 ∧
     (CalculateStats sampleFlags
        (runCalls sampleFlags (Reset (create 0 1)) [.chr 0 .Read, .chr 0 .Drawn])).readChrSize = 0) :=
  recompute_differs_from_incremental sampleFlags (by decide)

/-- C8 (the code departs from the claim). In the state reached from `Reset` by
`SetFlag(0, Read)` on a logger with one graphics byte, the byte has `Read` and
not `Drawn` and `usedChrSize` is 1; the call `SetFlag(0, Drawn)` then raises
`usedChrSize` to 2 although the byte already carried the other flag (it also
raises `drawnChrSize` from 0 to 1 and sets the bit).  This holds for all disjoint
flag values. -/
theorem setFlagChr_counts_used_byte_again (fv : CdlFlagValues) (hfv : fv.Disjoint) :
    (hasFlag fv.Read ((runCalls fv (Reset (create 0 1)) [.chr 0 .Read]).byteAt 0) = true ∧
     hasFlag fv.Drawn ((runCalls fv (Reset (create 0 1)) [.chr 0 .Read]).byteAt 0) = false ∧
     (runCalls fv (Reset (create 0 1)) [.chr 0 .Read]).usedChrSize = 1 ∧
     (runCalls fv (Reset (create 0 1)) [.chr 0 .Read]).drawnChrSize = 0) ∧
    (((runCalls fv (Reset (create 0 1)) [.chr 0 .Read]).SetFlagChr fv 0 .Drawn).usedChrSize = 2 ∧
     ((runCalls fv (Reset (create 0 1)) [.chr 0 .Read]).SetFlagChr fv 0 .Drawn).drawnChrSize = 1 ∧
     hasFlag fv.Drawn
       (((runCalls fv (Reset (create 0 1)) [.chr 0 .Read]).SetFlagChr fv 0 .Drawn).byteAt 0)
       = true) := by
  have h2 : (runCalls fv (Reset (create 0 1)) [.chr 0 .Read]).SetFlagChr fv 0 .Drawn
      = runCalls fv (Reset (create 0 1)) [.chr 0 .Read, .chr 0 .Drawn] := rfl
  rw [h2, run_read_drawn fv hfv, run_read fv hfv]
  have hd8 := hfv.1.2.2.2.2.1
  have hr8 := hfv.1.2.2.2.2.2
  have hd0 := hfv.2.1.2.2.2.2.1
  have hdr := hfv.2.2.2
  have e1 : hasFlag fv.Read fv.Read = true := by simp [hasFlag, toUInt8_of_lt hr8]
  have e2 : hasFlag fv.Drawn fv.Read = false := by
    have hrd : fv.Read &&& fv.Drawn = 0 := by rw [Nat.and_comm]; exact hdr
    simp only [hasFlag, toUInt8_of_lt hd8, hrd]
    simpa using fun h : 0 = fv.Drawn => hd0 h.symm
  have e3 : hasFlag fv.Drawn (fv.Read ||| fv.Drawn) = true := by
    simp [hasFlag, toUInt8_of_lt hd8, or_and_self]
  exact ⟨⟨e1, e2, rfl, rfl⟩, rfl, rfl, e3⟩

/-- Evaluation of C8's failing input with the flag values `Drawn = 1`, `Read = 2`. -/
theorem setFlagChr_counts_used_byte_again_witness :
    ((runCalls sampleFlags (Reset (create 0 1)) [.chr 0 .Read]).SetFlagChr sampleFlags 0
        .Drawn).usedChrSize = 2 :=
  (setFlagChr_counts_used_byte_again sampleFlags (by decide)).2.1

/-- C10 (the code departs from the claim). On a map with one graphics byte that
carries both `Drawn` and `Read`, the number of graphics bytes with `Read` is 1
but `CalculateStats` leaves `readChrSize = 0` (with `usedChrSize = 1` and
`drawnChrSize = 1`): a byte with both flags is counted as drawn only.  This holds
for all disjoint flag values. -/
theorem calculateStats_skips_read_of_drawn_byte (fv : CdlFlagValues) (hfv : fv.Disjoint) :
    countChr (bothFlagsMap fv) (hasFlag fv.Read) = 1 ∧
    countChr (bothFlagsMap fv) (hasFlag fv.Drawn) = 1 ∧
    (CalculateStats fv (bothFlagsMap fv)).readChrSize = 0 ∧
    (CalculateStats fv (bothFlagsMap fv)).drawnChrSize = 1 ∧
    (CalculateStats fv (bothFlagsMap fv)).usedChrSize = 1 := by
  have hd8 := hfv.1.2.2.2.2.1
  have hr8 := hfv.1.2.2.2.2.2
  have hb : (fv.Drawn ||| fv.Read) &&& fv.Drawn = fv.Drawn := by
    rw [Nat.or_comm]; exact or_and_self _ _
  rw [CalculateStats_one_drawn fv hfv (fv.Drawn ||| fv.Read) hb _ rfl rfl rfl]
  refine ⟨?_, ?_, rfl, rfl, rfl⟩
  · simp [countChr, bothFlagsMap, hasFlag, toUInt8_of_lt hr8, or_and_self]
  · simp [countChr, bothFlagsMap, hasFlag, toUInt8_of_lt hd8, hb]

/-- Evaluation of C10's failing input with the flag values `Drawn = 1`,
`Read = 2`, where the byte is 3. -/
theorem calculateStats_skips_read_of_drawn_byte_witness :
    countChr (bothFlagsMap sampleFlags) (hasFlag sampleFlags.Read) = 1 ∧
    (CalculateStats sampleFlags (bothFlagsMap sampleFlags)).readChrSize = 0 :=
  ⟨(calculateStats_skips_read_of_drawn_byte sampleFlags (by decide)).1,
   (calculateStats_skips_read_of_drawn_byte sampleFlags (by decide)).2.2.1⟩

/-- C11. Ratio sentinel: when `chrSize` is 0, whatever the map and the counters
are, `GetRatios` returns the constant -1 (a negative value) for `ChrRatio`,
`ChrReadRatio` and `ChrDrawnRatio`, and none of the three is the result of a
division by the graphics size. -/
theorem ratio_sentinel (s : CodeDataLogger) (h : s.chrSize = 0) :
    (s.GetRatios.ChrRatio = .constant (-1) ∧ s.GetRatios.ChrReadRatio = .constant (-1) ∧
      s.GetRatios.ChrDrawnRatio = .constant (-1)) ∧
    (s.GetRatios.ChrRatio.toRat < 0 ∧ s.GetRatios.ChrReadRatio.toRat < 0 ∧
      s.GetRatios.ChrDrawnRatio.toRat < 0) ∧
    (¬ s.GetRatios.ChrRatio.DividesBy s.chrSize ∧
      ¬ s.GetRatios.ChrReadRatio.DividesBy s.chrSize ∧
      ¬ s.GetRatios.ChrDrawnRatio.DividesBy s.chrSize) := by
  simp [GetRatios, h, RatioValue.toRat, RatioValue.DividesBy]

/-- Witness for C11: a logger with one program byte and no graphics storage. -/
theorem ratio_sentinel_witness :
    (codeAndDataMap sampleFlags).GetRatios.ChrRatio = .constant (-1) ∧
    (codeAndDataMap sampleFlags).GetRatios.ChrReadRatio = .constant (-1) ∧
    (codeAndDataMap sampleFlags).GetRatios.ChrDrawnRatio = .constant (-1) :=
  (ratio_sentinel (codeAndDataMap sampleFlags) rfl).1

/-- C12. Program ratios are fractions: in every state `s` reached from `Reset` by
flag-setter calls, with `0 < prgSize` (a `uint32_t`), `codeSize + dataSize ≤
prgSize`, the three program ratios of `GetRatios` are the quotients
`codeSize / prgSize`, `dataSize / prgSize` and `(codeSize + dataSize) / prgSize`
(the sum does not wrap), and read as exact rationals each lies in `[0, 1]`. -/
theorem prg_ratios_are_fractions (fv : CdlFlagValues) (hfv : fv.Disjoint)
    (s0 : CodeDataLogger) (calls : List CdlCall) (s : CodeDataLogger)
    (hs : s = runCalls fv (Reset s0) calls) (hpos : 0 < s.prgSize)
    (hsz : s.prgSize < 2 ^ 32) :
    s.codeSize + s.dataSize ≤ s.prgSize ∧
    (s.GetRatios.CodeRatio = .quotient s.codeSize s.prgSize ∧
      s.GetRatios.DataRatio = .quotient s.dataSize s.prgSize ∧
      s.GetRatios.PrgRatio = .quotient (s.codeSize + s.dataSize) s.prgSize) ∧
    (0 ≤ s.GetRatios.CodeRatio.toRat ∧ s.GetRatios.CodeRatio.toRat ≤ 1) ∧
    (0 ≤ s.GetRatios.DataRatio.toRat ∧ s.GetRatios.DataRatio.toRat ≤ 1) ∧
    (0 ≤ s.GetRatios.PrgRatio.toRat ∧ s.GetRatios.PrgRatio.toRat ≤ 1) := by
  have hsz0 : s0.prgSize < 2 ^ 32 := by
    have e : s.prgSize = s0.prgSize := by rw [hs, runCalls_prgSize]; rfl
    omega
  obtain ⟨_, hc, hd⟩ := reachable_counters fv hfv s0 hsz0 calls
  obtain ⟨_, hex⟩ := reachable_exclusive fv hfv s0 calls
  rw [← hs] at hc hd hex
  have hle := countPrg_add_le fv s hex
  rw [← hc, ← hd] at hle
  have hsum : toUInt32 (s.codeSize + s.dataSize) = s.codeSize + s.dataSize := by
    unfold toUInt32
    exact Nat.mod_eq_of_lt (by omega)
  have e3 : s.GetRatios.PrgRatio = .quotient (s.codeSize + s.dataSize) s.prgSize := by
    simp only [GetRatios, hsum]
  refine ⟨hle, ⟨rfl, rfl, e3⟩, ?_, ?_, ?_⟩
  · exact toRat_quotient_mem_unit hpos (by omega)
  · exact toRat_quotient_mem_unit hpos (by omega)
  · rw [e3]
    exact toRat_quotient_mem_unit hpos hle

/-- Witness for C12: three program bytes, one of them code and one data. -/
theorem prg_ratios_are_fractions_witness :
    (runCalls sampleFlags (Reset (create 3 1))
        [.prg 0 .Data, .prg 1 .Data, .prg 1 .Code]).GetRatios.PrgRatio = .quotient (1 + 1) 3 ∧
    (runCalls sampleFlags (Reset (create 3 1))
        [.prg 0 .Data, .prg 1 .Data, .prg 1 .Code]).GetRatios.PrgRatio.toRat ≤ 1 :=
  ⟨(prg_ratios_are_fractions sampleFlags (by decide) (create 3 1)
      [.prg 0 .Data, .prg 1 .Data, .prg 1 .Code] _ rfl (by decide) (by decide)).2.1.2.2,
   (prg_ratios_are_fractions sampleFlags (by decide) (create 3 1)
      [.prg 0 .Data, .prg 1 .Data, .prg 1 .Code] _ rfl (by decide) (by decide)).2.2.2.2.2⟩

/-- C13 (the code departs from the claim). On a freshly reset logger with one
graphics byte, after `SetFlag(0, Read)` and `SetFlag(0, Drawn)` the ratio
`ChrRatio` of `GetRatios` is the quotient `2 / 1`; read as an exact rational it is
2 and so does not lie in `[0, 1]`, while `ChrReadRatio` and `ChrDrawnRatio` are
`1 / 1`.  This holds for all disjoint flag values. -/
theorem chr_used_ratio_exceeds_one (fv : CdlFlagValues) (hfv : fv.Disjoint) :
    (runCalls fv (Reset (create 0 1)) [.chr 0 .Read, .chr 0 .Drawn]).chrSize = 1 ∧
    (runCalls fv (Reset (create 0 1)) [.chr 0 .Read, .chr 0 .Drawn]).GetRatios.ChrRatio
      = .quotient 2 1 ∧
    (runCalls fv (Reset (create 0 1)) [.chr 0 .Read, .chr 0 .Drawn]).GetRatios.ChrRatio.toRat
      = 2 ∧
    ¬ ((runCalls fv (Reset (create 0 1))
        [.chr 0 .Read, .chr 0 .Drawn]).GetRatios.ChrRatio.toRat ≤ 1) ∧
    (runCalls fv (Reset (create 0 1)) [.chr 0 .Read, .chr 0 .Drawn]).GetRatios.ChrReadRatio
      = .quotient 1 1 ∧
    (runCalls fv (Reset (create 0 1)) [.chr 0 .Read, .chr 0 .Drawn]).GetRatios.ChrDrawnRatio
      = .quotient 1 1 := by
  rw [run_read_drawn fv hfv]
  refine ⟨rfl, ?_, ?_, ?_, ?_, ?_⟩ <;> norm_num [GetRatios, RatioValue.toRat]

/-- Evaluation of C13's failing input with the flag values `Drawn = 1`, `Read = 2`. -/
theorem chr_used_ratio_exceeds_one_witness :
    (runCalls sampleFlags (Reset (create 0 1))
      [.chr 0 .Read, .chr 0 .Drawn]).GetRatios.ChrRatio = .quotient 2 1 :=
  (chr_used_ratio_exceeds_one sampleFlags (by decide)).2.1

/-- C14, amended. Invariant I2: for every map state, every address `a` and `f`
one of `JumpTarget`, `SubEntryPoint`, the call `SetFlag(a, f)` leaves `IsCode` and
`IsData` of every byte unchanged and leaves all five counters unchanged; when
`prgSize < 2^31` and `0 ≤ a < prgSize` the resulting state is the given state with
byte `a` replaced by itself ORed with `f`, so that on a well-formed map byte `a`
has the flag afterwards. -/
theorem annotation_flags_independent (fv : CdlFlagValues) (hfv : fv.Disjoint)
    (s : CodeDataLogger) (a : Int) (f : CdlPrgFlags)
    (hf : f = .JumpTarget ∨ f = .SubEntryPoint) :
    (∀ j, (s.SetFlagPrg fv a f).IsCode fv j = s.IsCode fv j ∧
      (s.SetFlagPrg fv a f).IsData fv j = s.IsData fv j) ∧
    ((s.SetFlagPrg fv a f).codeSize = s.codeSize ∧
      (s.SetFlagPrg fv a f).dataSize = s.dataSize ∧
      (s.SetFlagPrg fv a f).usedChrSize = s.usedChrSize ∧
      (s.SetFlagPrg fv a f).drawnChrSize = s.drawnChrSize ∧
      (s.SetFlagPrg fv a f).readChrSize = s.readChrSize) ∧
    (0 ≤ a → a < (s.prgSize : Int) → s.prgSize < 2 ^ 31 →
      s.SetFlagPrg fv a f =
        { s with cdlData := s.cdlData.set a.toNat (s.byteAt a.toNat ||| fv.prg f) } ∧
      (s.WellFormed →
        (s.SetFlagPrg fv a f).byteAt a.toNat = s.byteAt a.toNat ||| fv.prg f ∧
        hasFlag (fv.prg f) ((s.SetFlagPrg fv a f).byteAt a.toNat) = true)) := by
  refine ⟨fun j => SetFlagPrg_annotation_spec fv s hfv a f hf j, ?_, ?_⟩
  · obtain ⟨h1, h2⟩ := SetFlagPrg_annotation_counters fv s hfv a f hf
    exact ⟨h1, h2, SetFlagPrg_usedChrSize fv s a f, SetFlagPrg_drawnChrSize fv s a f,
      SetFlagPrg_readChrSize fv s a f⟩
  · intro h0 h1 hsz
    have h1t : a < toInt32 s.prgSize := by rw [toInt32_of_lt hsz]; exact h1
    have heq := SetFlagPrg_annotation_eq fv s hfv a f hf h0 h1t
    refine ⟨heq, fun hwf => ?_⟩
    have hlen := toNat_lt_length_prg s hwf h0 h1t
    have hm8 : toUInt8 (fv.prg f) = fv.prg f := by
      rcases hf with rfl | rfl
      · exact toUInt8_of_lt hfv.1.2.2.1
      · exact toUInt8_of_lt hfv.1.2.2.2.1
    have hb : (s.SetFlagPrg fv a f).byteAt a.toNat = s.byteAt a.toNat ||| fv.prg f := by
      rw [heq]
      exact byteAt_mk_set s _ hlen _ rfl
    refine ⟨hb, ?_⟩
    rw [hb]
    have := hasFlag_or_self (fv.prg f) (s.byteAt a.toNat)
    rw [hm8] at this
    exact this

/-- Witness for C14: `JumpTarget` is set on a byte that was marked as code. -/
theorem annotation_flags_independent_witness :
    ((runCalls sampleFlags (create 2 1) [.prg 1 .Code]).SetFlagPrg sampleFlags 1
        .JumpTarget).byteAt 1 = 1 ||| 4 ∧
    ((runCalls sampleFlags (create 2 1) [.prg 1 .Code]).SetFlagPrg sampleFlags 1
        .JumpTarget).codeSize = 1 :=
  ⟨(((annotation_flags_independent sampleFlags (by decide)
        (runCalls sampleFlags (create 2 1) [.prg 1 .Code]) 1 .JumpTarget (Or.inl rfl)).2.2
        (by decide) (by decide) (by decide)).2 (by decide)).1,
   (annotation_flags_independent sampleFlags (by decide)
        (runCalls sampleFlags (create 2 1) [.prg 1 .Code]) 1 .JumpTarget (Or.inl rfl)).2.1.1⟩

/-- C18, as stated, fails: on a map whose program byte 0 carries both `Code` and
`Data` (flag values `Code = 1`, `Data = 2`, byte 3), the byte has `Data` and
address 0 is in range, yet after `SetFlag(0, Code)` the state is unchanged and the
byte still has `Data`.  It also fails on a map of program size `2^31` whose byte 0
carries `Data` only: address 0 lies in `[0, prgSize)`, yet the range check, which
converts the size to `int32_t`, rejects it, so the state is unchanged and the byte
does not have `Code`. -/
theorem promotion_keeps_data_on_code_byte :
    ((codeAndDataMap sampleFlags).WellFormed ∧
      (0 : Int) < ((codeAndDataMap sampleFlags).prgSize : Int) ∧
      (codeAndDataMap sampleFlags).IsData sampleFlags 0 = true ∧
      (codeAndDataMap sampleFlags).SetFlagPrg sampleFlags 0 .Code = codeAndDataMap sampleFlags ∧
      ¬ (((codeAndDataMap sampleFlags).SetFlagPrg sampleFlags 0 .Code).IsData sampleFlags 0
          = false)) ∧
    ((hugeDataLogger sampleFlags).WellFormed ∧
      (0 : Int) < ((hugeDataLogger sampleFlags).prgSize : Int) ∧
      (hugeDataLogger sampleFlags).IsData sampleFlags 0 = true ∧
      (hugeDataLogger sampleFlags).IsCode sampleFlags 0 = false ∧
      (hugeDataLogger sampleFlags).SetFlagPrg sampleFlags 0 .Code = hugeDataLogger sampleFlags ∧
      ¬ (((hugeDataLogger sampleFlags).SetFlagPrg sampleFlags 0 .Code).IsCode sampleFlags 0
          = true)) := by
  have e1 := SetFlagPrg_of_size_two_pow_31 sampleFlags (hugeDataLogger sampleFlags) rfl 0 .Code
  have hb : (hugeDataLogger sampleFlags).byteAt 0 = 2 := rfl
  have hd : (hugeDataLogger sampleFlags).IsData sampleFlags 0 = true := by
    rw [IsData_eq, hb]; decide
  have hc : (hugeDataLogger sampleFlags).IsCode sampleFlags 0 = false := by
    rw [IsCode_eq, hb]; decide
  refine ⟨by decide, hugeDataLogger_wellFormed sampleFlags, ?_, hd, hc, e1, ?_⟩
  · show (0 : Int) < ((2 ^ 31 : Nat) : Int)
    norm_num
  · rw [e1, hc]
    exact Bool.false_ne_true

/-- C18, amended. For every well-formed map, whatever its contents, with
`prgSize < 2^31` and every address `a` with `0 ≤ a < prgSize` whose byte has `Data`
and does not have `Code`, after `SetFlag(a, Code)` the byte
has `Code` and does not have `Data`; when the byte has `Data` and already has
`Code`, the call changes nothing. -/
theorem promotion_clears_data (fv : CdlFlagValues) (hfv : fv.Disjoint)
    (s : CodeDataLogger) (hwf : s.WellFormed) (a : Int) (h0 : 0 ≤ a)
    (h1 : a < (s.prgSize : Int)) (hsz : s.prgSize < 2 ^ 31)
    (hd : s.IsData fv a.toNat = true) :
    (s.IsCode fv a.toNat = false →
      (s.SetFlagPrg fv a .Code).IsCode fv a.toNat = true ∧
      (s.SetFlagPrg fv a .Code).IsData fv a.toNat = false) ∧
    (s.IsCode fv a.toNat = true → s.SetFlagPrg fv a .Code = s) := by
  have h1t : a < toInt32 s.prgSize := by rw [toInt32_of_lt hsz]; exact h1
  obtain ⟨c1, c2⟩ := SetFlagPrg_code_spec fv s hfv hwf a h0 h1t
  constructor
  · intro hc
    rw [IsCode_eq] at hc ⊢
    rw [IsData_eq] at hd ⊢
    rw [c1, c2, hc, hd]
    exact ⟨rfl, rfl⟩
  · intro hc
    exact SetFlagPrg_of_has fv s a .Code ((hasFlag_eq_true_iff _ _).1 hc)

/-- Witness for C18 as amended: a byte marked as data is promoted to code. -/
theorem promotion_clears_data_witness :
    ((runCalls sampleFlags (create 2 1) [.prg 1 .Data]).SetFlagPrg sampleFlags 1
        .Code).IsCode sampleFlags 1 = true ∧
    ((runCalls sampleFlags (create 2 1) [.prg 1 .Data]).SetFlagPrg sampleFlags 1
        .Code).IsData sampleFlags 1 = false :=
  (promotion_clears_data sampleFlags (by decide)
    (runCalls sampleFlags (create 2 1) [.prg 1 .Data]) (by decide) 1 (by decide) (by decide)
    (by decide) (by decide)).1 (by decide)

/-- C3, as stated, fails: on the freshly reset logger of program size `2^31`
address 0 lies in `[0, prgSize)`, yet after `SetFlag(0, Data)` followed by
`SetFlag(0, Code)`, and after the reverse order, the state is unchanged and
`IsCode(0)` is false, because the size converted to `int32_t` is negative and the
range check rejects every address. -/
theorem code_does_not_win_at_size_two_pow_31 :
    hugeLogger = runCalls sampleFlags (Reset hugeLogger) [] ∧
    hugeLogger.WellFormed ∧
    ((0 : Int) ≤ 0 ∧ (0 : Int) < (hugeLogger.prgSize : Int)) ∧
    setDataThenCode sampleFlags 0 hugeLogger = hugeLogger ∧
    setCodeThenData sampleFlags 0 hugeLogger = hugeLogger ∧
    ¬ ((setDataThenCode sampleFlags 0 hugeLogger).IsCode sampleFlags 0 = true) ∧
    ¬ ((setCodeThenData sampleFlags 0 hugeLogger).IsCode sampleFlags 0 = true) := by
  have e1 : setDataThenCode sampleFlags 0 hugeLogger = hugeLogger := by
    unfold setDataThenCode
    rw [SetFlagPrg_of_size_two_pow_31 sampleFlags hugeLogger hugeLogger_prgSize,
      SetFlagPrg_of_size_two_pow_31 sampleFlags hugeLogger hugeLogger_prgSize]
  have e2 : setCodeThenData sampleFlags 0 hugeLogger = hugeLogger := by
    unfold setCodeThenData
    rw [SetFlagPrg_of_size_two_pow_31 sampleFlags hugeLogger hugeLogger_prgSize,
      SetFlagPrg_of_size_two_pow_31 sampleFlags hugeLogger hugeLogger_prgSize]
  have hc : ¬ (hugeLogger.IsCode sampleFlags 0 = true) := by
    rw [IsCode_eq, hugeLogger_byteAt]
    decide
  refine ⟨rfl, Reset_wellFormed _, ⟨le_refl _, ?_⟩, e1, e2, ?_, ?_⟩
  · rw [hugeLogger_prgSize]; norm_num
  · rw [e1]; exact hc
  · rw [e2]; exact hc

/-- C14, as stated, fails in its in-range clause: on the logger of program size
`2^31` address 0 lies in `[0, prgSize)`, yet `SetFlag(0, JumpTarget)` returns the
state unchanged and byte 0 does not have `JumpTarget` afterwards, because the
size converted to `int32_t` is negative and the range check rejects every
address. -/
theorem annotation_not_set_at_size_two_pow_31 :
    hugeLogger.WellFormed ∧
    ((0 : Int) ≤ 0 ∧ (0 : Int) < (hugeLogger.prgSize : Int)) ∧
    hugeLogger.SetFlagPrg sampleFlags 0 .JumpTarget = hugeLogger ∧
    ¬ ((hugeLogger.SetFlagPrg sampleFlags 0 .JumpTarget).IsJumpTarget sampleFlags 0 = true) := by
  have e1 := SetFlagPrg_of_size_two_pow_31 sampleFlags hugeLogger hugeLogger_prgSize 0
    .JumpTarget
  refine ⟨Reset_wellFormed _, ⟨le_refl _, ?_⟩, e1, ?_⟩
  · rw [hugeLogger_prgSize]; norm_num
  · rw [e1]
    unfold IsJumpTarget
    rw [hugeLogger_byteAt]
    decide

end FlagSetters

/-! ## Theorems about the debugger -/

section DebuggerTheorems

open Debugger

/-- C4, amended. Range merging: for every resolver (a function, so it answers
consistently during the pass) all of whose physical addresses `a` are `int32_t`
values with `a + 0x100 ≤ INT32_MAX`, so that no `int32_t` sum of the pass
overflows, `GenerateCodeOutput` issues a list of requests such that the blocks a
request covers are the blocks from its logical start up to the block at which the
merging loop was left, and for every request and every aligned block `b` with
`b + 0x100 < 0x10000` that the request covers, the request covers block
`b + 0x100` if and only if `resolve (b + 0x100)` has the space type of `resolve b`
and the physical address `(resolve b).Address + 0x100`.  In particular, when
blocks 0 and 0x100 resolve to physical 0 and 0x100 of one type and block 0x200
does not continue them, the first request is tagged with logical start 0 and asks
for physical `[0, 0x1FF]`, and every other request starts at 0x200 or later; when
block 0x100 is mapped but does not continue block 0, the first request covers
physical `[0, 0xFF]` and the second request is a separate one that starts at block
0x100. -/
theorem range_merging (resolve : Nat → AddressTypeInfo) (hfit : AddressesFit resolve) :
    ∃ reqs, codeRequests resolve = some reqs ∧
      (∀ r ∈ reqs, ∃ last, mergedUpTo resolve r.startMemoryAddr = some last ∧
        ∀ b, r.Covers b ↔ r.startMemoryAddr ≤ b ∧ b ≤ last) ∧
      (∀ r ∈ reqs, ∀ b, b % 0x100 = 0 → b + 0x100 < 0x10000 → r.Covers b →
        (r.Covers (b + 0x100) ↔
          ((resolve (b + 0x100)).type = (resolve b).type ∧
            (resolve (b + 0x100)).Address = (resolve b).Address + 0x100))) ∧
      ((resolve 0).Address = 0 → (resolve 0x100).Address = 0x100 →
        (resolve 0x100).type = (resolve 0).type → ¬ Contiguous resolve 0x100 →
        ∃ rest, reqs = { startInfo := resolve 0, endAddr := 0x1FF, startMemoryAddr := 0 } :: rest ∧
          ∀ r ∈ rest, 0x200 ≤ r.startMemoryAddr) ∧
      ((resolve 0).Address = 0 → 0 ≤ (resolve 0x100).Address → ¬ Contiguous resolve 0 →
        ∃ r1 rest,
          reqs = { startInfo := resolve 0, endAddr := 0xFF, startMemoryAddr := 0 } :: r1 :: rest ∧
          r1.startInfo = resolve 0x100 ∧ r1.startMemoryAddr = 0x100 ∧
          ∀ r ∈ rest, 0x200 ≤ r.startMemoryAddr) := by
  obtain ⟨reqs, hreqs, hrun⟩ := codeRequests_spec resolve hfit
  refine ⟨reqs, hreqs, ?_, ?_, ?_, ?_⟩
  · intro r hr
    exact IsRun.covers_iff_merged resolve (hrun r hr)
  · intro r hr b hb htop hcov
    exact IsRun.covers_next resolve (hrun r hr) b hb htop hcov
  · intro h0 h1 ht hc1
    have hc0 : Contiguous resolve 0 := ⟨ht, by rw [h1, h0]; rfl⟩
    obtain ⟨rest, h, hall⟩ := codeRequests_merged resolve hfit h0 hc0 hc1
    rw [hreqs] at h
    exact ⟨rest, Option.some.inj h, hall⟩
  · intro h0 h1 hc0
    obtain ⟨r1, rest, h, hs, hm, hall⟩ := codeRequests_split resolve hfit h0 h1 hc0
    rw [hreqs] at h
    exact ⟨r1, rest, Option.some.inj h, hs, hm, hall⟩

set_option maxRecDepth 100000 in
/-- Witness for C4: a resolver whose first two blocks are physically contiguous
yields one merged request for them, which covers block 0x100 because it covers
block 0, and a resolver whose second block lies at physical 0x400 yields two
requests. -/
theorem range_merging_witness :
    AddressesFit sampleResolve ∧ AddressesFit sampleResolveSplit ∧
    (∃ rest, codeRequests sampleResolve
        = some ({ startInfo := sampleResolve 0, endAddr := 0x1FF, startMemoryAddr := 0 } :: rest) ∧
      CodeRequest.Covers { startInfo := sampleResolve 0, endAddr := 0x1FF, startMemoryAddr := 0 }
        (0 + 0x100)) ∧
    (∃ r1 rest, codeRequests sampleResolveSplit
        = some ({ startInfo := sampleResolveSplit 0, endAddr := 0xFF, startMemoryAddr := 0 }
            :: r1 :: rest) ∧ r1.startMemoryAddr = 0x100) := by
  refine ⟨sampleResolve_fit, sampleResolveSplit_fit, ?_, ?_⟩
  · obtain ⟨reqs, h, _, h1, h2, _⟩ := range_merging sampleResolve sampleResolve_fit
    obtain ⟨rest, e, _⟩ := h2 (by decide) (by decide) (by decide) (by decide)
    subst e
    exact ⟨rest, h,
      (h1 _ (List.mem_cons_self _ _) 0 (by decide) (by decide) (by decide)).2
        ⟨by decide, by decide⟩⟩
  · obtain ⟨reqs, h, _, _, _, h3⟩ := range_merging sampleResolveSplit sampleResolveSplit_fit
    obtain ⟨r1, rest, e, _, hm, _⟩ := h3 (by decide) (by decide) (by decide)
    subst e
    exact ⟨r1, rest, h, hm⟩

set_option maxRecDepth 100000 in
/-- C4 (the claim fails as stated). For the resolver, all of whose addresses are
`int32_t` values, that maps block 0 to the physical address `2^31 - 0x100` and
answers `-2^31` for block 0x100, the sum `currentInfo.Address + 0x100` overflows
and wraps to `-2^31`: the pass issues one request, tagged with logical start 0 and
with end address `-2147483393`, the merging loop is left at block 0x100, so block
0x100 has been merged into the request of block 0, and yet the physical address of
block 0x100 is not the physical address of block 0 plus 0x100. -/
theorem range_merging_fails_on_overflow :
    (-2 ^ 31 ≤ (wrapResolve 0).Address ∧ (wrapResolve 0).Address < 2 ^ 31) ∧
    (-2 ^ 31 ≤ (wrapResolve 0x100).Address ∧ (wrapResolve 0x100).Address < 2 ^ 31) ∧
    codeRequests wrapResolve
      = some [{ startInfo := wrapResolve 0, endAddr := -2147483393, startMemoryAddr := 0 }] ∧
    mergedUpTo wrapResolve 0 = some 0x100 ∧
    0 + 0x100 < 0x10000 ∧
    ¬ ((wrapResolve (0 + 0x100)).type = (wrapResolve 0).type ∧
        (wrapResolve (0 + 0x100)).Address = (wrapResolve 0).Address + 0x100) := by
  refine ⟨wrapResolve_int32 0, wrapResolve_int32 0x100, ?_, ?_, ?_, ?_⟩
  · decide!
  · decide!
  · decide
  · decide

/-- C15, amended. Runs partition the mapped blocks: for every resolver all of
whose physical addresses `a` are `int32_t` values with `a + 0x100 ≤ INT32_MAX`, so
that no `int32_t` sum of the pass overflows, the requests of one
`GenerateCodeOutput` pass are issued in strictly increasing order of logical start
address; each request is tagged with a 256-aligned logical start `s` whose
resolution is its `startInfo` and has a non-negative physical address `p`, and asks
for the physical range `[p, p + 0x100 * k - 1]` where `k ≥ 1` is the number of
blocks merged into it (the merging loop was left at block `s + 0x100 * (k - 1)`),
which are the aligned blocks it covers, namely those from `s` up to
`s + 0x100 * k` exclusive; and every aligned block below 0x10000 is covered by
exactly one request when its start resolves to a non-negative physical address and
by no request when its start resolves to a negative one. -/
theorem runs_partition_blocks (resolve : Nat → AddressTypeInfo)
    (hfit : AddressesFit resolve) :
    ∃ reqs, codeRequests resolve = some reqs ∧
      reqs.Pairwise (fun r1 r2 => r1.startMemoryAddr < r2.startMemoryAddr) ∧
      (∀ r ∈ reqs, r.startMemoryAddr % 0x100 = 0 ∧ r.startInfo = resolve r.startMemoryAddr ∧
        0 ≤ r.startInfo.Address ∧
        ∃ k : Nat, 1 ≤ k ∧ r.endAddr = r.startInfo.Address + 0x100 * (k : Int) - 1 ∧
          mergedUpTo resolve r.startMemoryAddr = some (r.startMemoryAddr + 0x100 * (k - 1)) ∧
          ∀ b, b % 0x100 = 0 →
            (r.Covers b ↔ r.startMemoryAddr ≤ b ∧ b < r.startMemoryAddr + 0x100 * k)) ∧
      (∀ b, b % 0x100 = 0 → b < 0x10000 →
        (0 ≤ (resolve b).Address → ∃! r, r ∈ reqs ∧ r.Covers b) ∧
        ((resolve b).Address < 0 → ∀ r ∈ reqs, ¬ r.Covers b)) := by
  obtain ⟨reqs, hreqs, hrun⟩ := codeRequests_spec resolve hfit
  obtain ⟨reqs2, hreqs2, _, hpw, huniq, hcov⟩ :=
    codeLoop_partition resolve hfit 256 0 (by omega) (by omega)
  have e : reqs2 = reqs := by
    unfold codeRequests at hreqs
    rw [hreqs] at hreqs2
    exact (Option.some.inj hreqs2).symm
  subst e
  refine ⟨reqs2, hreqs, hpw, ?_, ?_⟩
  · intro r hr
    have hrr := hrun r hr
    obtain ⟨k, hk1, he, hm, hblocks, _⟩ := IsRun.exists_blocks resolve hrr
    exact ⟨hrr.2.1, hrr.1, hrr.2.2.2.1, k, hk1, he, hm, hblocks⟩
  · intro b hb htop
    constructor
    · intro hmap
      obtain ⟨r, hr, hc⟩ := hcov b hb (Nat.zero_le _) htop hmap
      exact ⟨r, ⟨hr, hc⟩, fun r2 h2 => huniq b r2 r h2.1 hr h2.2 hc⟩
    · intro hneg r hr hc
      obtain ⟨_, _, _, _, _, hmapped⟩ := IsRun.exists_blocks resolve (hrun r hr)
      have := hmapped b hb hc
      omega

set_option maxRecDepth 100000 in
/-- Witness for C15: with the first two blocks mapped contiguously and the rest
unmapped, block 0x100 is covered by exactly one request and block 0x200 by none. -/
theorem runs_partition_blocks_witness :
    AddressesFit sampleResolve ∧
    ∃ reqs, codeRequests sampleResolve = some reqs ∧
      (∃! r, r ∈ reqs ∧ r.Covers 0x100) ∧ (∀ r ∈ reqs, ¬ r.Covers 0x200) := by
  obtain ⟨reqs, h, _, _, hb⟩ := runs_partition_blocks sampleResolve sampleResolve_fit
  exact ⟨sampleResolve_fit, reqs, h, (hb 0x100 (by decide) (by decide)).1 (by decide),
    (hb 0x200 (by decide) (by decide)).2 (by decide)⟩

set_option maxRecDepth 100000 in
/-- C15 (the claim fails as stated). For the resolver, all of whose addresses are
`int32_t` values, that maps block 0 to the physical address `p = 2^31 - 0x100` and
answers the negative address `-2^31` for block 0x100, the `int32_t` sums of the
pass overflow: the pass issues one request, tagged with logical start 0 and with
end address `-2147483393`, which is `p + 0x100 * k - 1` for no `k ≥ 1`; the
merging loop is left at block 0x100, so the block at 0x100, whose start resolves
to a negative address, has been merged into a request; and the physical range of
the request, which ends below its start, does not cover the mapped block 0. -/
theorem runs_partition_fails_on_overflow :
    (-2 ^ 31 ≤ (wrapResolve 0).Address ∧ (wrapResolve 0).Address < 2 ^ 31) ∧
    (-2 ^ 31 ≤ (wrapResolve 0x100).Address ∧ (wrapResolve 0x100).Address < 2 ^ 31) ∧
    codeRequests wrapResolve
      = some [{ startInfo := wrapResolve 0, endAddr := -2147483393, startMemoryAddr := 0 }] ∧
    (¬ ∃ k : Nat, 1 ≤ k ∧ (-2147483393 : Int) = (wrapResolve 0).Address + 0x100 * (k : Int) - 1) ∧
    (wrapResolve 0x100).Address < 0 ∧
    mergedUpTo wrapResolve 0 = some 0x100 ∧
    0 ≤ (wrapResolve 0).Address ∧
    ¬ CodeRequest.Covers
      { startInfo := wrapResolve 0, endAddr := -2147483393, startMemoryAddr := 0 } 0 := by
  refine ⟨wrapResolve_int32 0, wrapResolve_int32 0x100, ?_, ?_, ?_, ?_, ?_, ?_⟩
  · decide!
  · rintro ⟨k, hk, h⟩
    have e : (wrapResolve 0).Address = 2147483392 := rfl
    rw [e] at h
    omega
  · decide
  · decide!
  · decide
  · decide

/-- C16. Mid-fetch-safe redirect: for every debugger state, every CPU and every
address, `SetNextStatement` called while `_currentReadAddr` is null returns the
state with only `_nextReadAddr` replaced by the address, so the CPU (and its
program counter) and the live slot are untouched; called while a live slot is
exposed it replaces the CPU by the result of `SetDebugPC(addr)` (whose program
counter is `addr` for a CPU whose `SetDebugPC` sets what `GetPC` reads), sets the
slot's address to `addr` and the slot's value to the debug read at `addr`, and
leaves `_nextReadAddr` unchanged. -/
theorem setNextStatement_redirect {Cpu : Type} (ops : CpuOps Cpu) (debugRead : Nat → Nat)
    (d : DebuggerState Cpu) (addr : Nat) :
    (d.currentReadAddr = none →
      SetNextStatement ops debugRead d addr = { d with nextReadAddr := (addr : Int) } ∧
      (SetNextStatement ops debugRead d addr).cpu = d.cpu ∧
      (SetNextStatement ops debugRead d addr).currentReadAddr = d.currentReadAddr ∧
      (SetNextStatement ops debugRead d addr).currentReadValue = d.currentReadValue ∧
      (SetNextStatement ops debugRead d addr).nextReadAddr = (addr : Int)) ∧
    (∀ slotAddr slotValue, d.currentReadAddr = some slotAddr →
      d.currentReadValue = some slotValue →
      (SetNextStatement ops debugRead d addr).cpu = ops.SetDebugPC d.cpu addr ∧
      ((∀ c a, ops.GetPC (ops.SetDebugPC c a) = a) →
        ops.GetPC (SetNextStatement ops debugRead d addr).cpu = addr) ∧
      (SetNextStatement ops debugRead d addr).currentReadAddr = some addr ∧
      (SetNextStatement ops debugRead d addr).currentReadValue = some (debugRead addr) ∧
      (SetNextStatement ops debugRead d addr).nextReadAddr = d.nextReadAddr ∧
      (SetNextStatement ops debugRead d addr).ppu = d.ppu) := by
  constructor
  · intro h
    simp [SetNextStatement, h]
  · intro slotAddr slotValue h1 h2
    have hcpu : (SetNextStatement ops debugRead d addr).cpu = ops.SetDebugPC d.cpu addr := by
      simp [SetNextStatement, h1]
    refine ⟨hcpu, fun hpc => by rw [hcpu]; exact hpc _ _, ?_, ?_, ?_, ?_⟩ <;>
      simp [SetNextStatement, h1, h2]

/-- Witness for C16 on a store CPU: without a live slot the redirect to 0x9000 is
only recorded, with a live slot it is applied. -/
theorem setNextStatement_redirect_witness :
    ((SetNextStatement storeCpu sampleDebugRead sampleIdle 0x9000).cpu = sampleIdle.cpu ∧
      (SetNextStatement storeCpu sampleDebugRead sampleIdle 0x9000).nextReadAddr = 0x9000) ∧
    (storeCpu.GetPC (SetNextStatement storeCpu sampleDebugRead sampleMidFetch 0x9000).cpu
        = 0x9000 ∧
      (SetNextStatement storeCpu sampleDebugRead sampleMidFetch 0x9000).currentReadAddr
        = some 0x9000 ∧
      (SetNextStatement storeCpu sampleDebugRead sampleMidFetch 0x9000).currentReadValue
        = some (sampleDebugRead 0x9000) ∧
      (SetNextStatement storeCpu sampleDebugRead sampleMidFetch 0x9000).nextReadAddr = -1) :=
  ⟨⟨((setNextStatement_redirect storeCpu sampleDebugRead sampleIdle 0x9000).1 rfl).2.1,
    ((setNextStatement_redirect storeCpu sampleDebugRead sampleIdle 0x9000).1 rfl).2.2.2.2⟩,
   ((setNextStatement_redirect storeCpu sampleDebugRead sampleMidFetch 0x9000).2
      0x8000 0xEA rfl rfl).2.1 (fun _ _ => rfl),
   ((setNextStatement_redirect storeCpu sampleDebugRead sampleMidFetch 0x9000).2
      0x8000 0xEA rfl rfl).2.2.1,
   ((setNextStatement_redirect storeCpu sampleDebugRead sampleMidFetch 0x9000).2
      0x8000 0xEA rfl rfl).2.2.2.1,
   ((setNextStatement_redirect storeCpu sampleDebugRead sampleMidFetch 0x9000).2
      0x8000 0xEA rfl rfl).2.2.2.2.1⟩

/-- C17, as stated, fails: with the CPU modelled as a store, an engine at program
counter 0x8000 without a live slot and a record whose program counter is 0x9000,
the two counters differ at the time of the call, yet `SetState` records no
redirect (`_nextReadAddr` stays -1, whereas `SetNextStatement(0x9000)` would have
set it to 0x9000) and the program counter has been written directly by the CPU's
`SetState`. -/
theorem setState_store_never_redirects :
    sampleRecord.CPU.PC ≠ storeCpu.GetPC sampleIdle.cpu ∧
    (SetState storeCpu sampleDebugRead sampleIdle sampleRecord).nextReadAddr = -1 ∧
    (SetNextStatement storeCpu sampleDebugRead
      { sampleIdle with cpu := sampleRecord.CPU, ppu := sampleRecord.PPU }
      sampleRecord.CPU.PC).nextReadAddr = 0x9000 ∧
    storeCpu.GetPC (SetState storeCpu sampleDebugRead sampleIdle sampleRecord).cpu = 0x9000 := by
  decide

/-- C17, amended. For every engine state, every CPU and every restored record,
`SetState` installs the CPU and PPU sub-states and then calls `SetNextStatement`
with the record's program counter exactly when that counter differs from the one
the CPU reports after its `SetState`; otherwise it requests no redirect.  Hence
for a CPU whose `SetState` keeps the program counter the redirect is requested
exactly when the record's counter differs from the engine's counter at the time of
the call, and for a CPU whose `SetState` installs the record's counter no redirect
is ever requested. -/
theorem setState_redirect {Cpu : Type} (ops : CpuOps Cpu) (debugRead : Nat → Nat)
    (d : DebuggerState Cpu) (state : DebugState) :
    (state.CPU.PC ≠ ops.GetPC (ops.SetState d.cpu state.CPU) →
      SetState ops debugRead d state =
        SetNextStatement ops debugRead
          { d with cpu := ops.SetState d.cpu state.CPU, ppu := state.PPU } state.CPU.PC) ∧
    (state.CPU.PC = ops.GetPC (ops.SetState d.cpu state.CPU) →
      SetState ops debugRead d state =
        { d with cpu := ops.SetState d.cpu state.CPU, ppu := state.PPU }) ∧
    ((∀ c r, ops.GetPC (ops.SetState c r) = ops.GetPC c) →
      (state.CPU.PC ≠ ops.GetPC d.cpu →
        SetState ops debugRead d state =
          SetNextStatement ops debugRead
            { d with cpu := ops.SetState d.cpu state.CPU, ppu := state.PPU } state.CPU.PC) ∧
      (state.CPU.PC = ops.GetPC d.cpu →
        SetState ops debugRead d state =
          { d with cpu := ops.SetState d.cpu state.CPU, ppu := state.PPU })) ∧
    ((∀ c r, ops.GetPC (ops.SetState c r) = r.PC) →
      SetState ops debugRead d state =
        { d with cpu := ops.SetState d.cpu state.CPU, ppu := state.PPU }) := by
  have hne : state.CPU.PC ≠ ops.GetPC (ops.SetState d.cpu state.CPU) →
      SetState ops debugRead d state =
        SetNextStatement ops debugRead
          { d with cpu := ops.SetState d.cpu state.CPU, ppu := state.PPU } state.CPU.PC := by
    intro h
    unfold SetState
    dsimp only
    rw [if_pos h]
  have heq : state.CPU.PC = ops.GetPC (ops.SetState d.cpu state.CPU) →
      SetState ops debugRead d state =
        { d with cpu := ops.SetState d.cpu state.CPU, ppu := state.PPU } := by
    intro h
    unfold SetState
    dsimp only
    rw [if_neg (not_not.2 h)]
  refine ⟨hne, heq, fun hkeep => ⟨fun h => hne ?_, fun h => heq ?_⟩, fun hstore => heq ?_⟩
  · rw [hkeep]; exact h
  · rw [hkeep]; exact h
  · rw [hstore]

/-- Witness for C17 as amended: a CPU that keeps its program counter at 0x8000
while the record's counter is 0x9000, without a live slot, ends with the redirect
to 0x9000 pending and the program counter still 0x8000. -/
theorem setState_redirect_witness :
    (SetState pcKeepingCpu sampleDebugRead sampleIdle sampleRecord).nextReadAddr = 0x9000 ∧
    pcKeepingCpu.GetPC (SetState pcKeepingCpu sampleDebugRead sampleIdle sampleRecord).cpu
      = 0x8000 := by
  have h := ((setState_redirect pcKeepingCpu sampleDebugRead sampleIdle sampleRecord).2.2.1
    (fun _ _ => rfl)).1 (by decide)
  rw [h]
  exact ⟨rfl, rfl⟩

set_option maxRecDepth 100000 in
/-- C19 (the code departs from the claim). For the resolver that maps every
logical address, also 0x10000, to the PRG ROM offset of the same value, the pass
issues the single request with logical start 0 and physical range `[0, 0x100FF]`:
the covered logical range ends at 0x100FF, above 0xFFFF, and 257 blocks are
covered, because the run is extended by the block at logical 0x10000. -/
theorem run_passes_top_of_address_space :
    codeRequests identityResolve
      = some [{ startInfo := identityResolve 0, endAddr := 0x100FF, startMemoryAddr := 0 }] ∧
    ¬ ((0 : Int) + (0x100FF - (identityResolve 0).Address) ≤ 0xFFFF) ∧
    CodeRequest.Covers
      { startInfo := identityResolve 0, endAddr := 0x100FF, startMemoryAddr := 0 } 0x10000 := by
  decide!

end DebuggerTheorems

end Mesen
